import Mathlib

/-!
# A verification development for the product collection handler (`server.go`)

The handler owns an ordered sequence of products and answers HTTP requests on
it.  The embedding below follows `server.go` function by function.

* A Go `string` is a Lean `String`; `strings.Split` works on its characters.
* A Go `int` is a Lean `Int`; `strconv.Atoi` refuses what does not fit in
  `intSize` bits.
* A Go `float64` is kept as its IEEE-754 bit pattern; the only operation the
  handler performs on it is the comparison with the constant `0`.
* A handler receives the collection and the request and returns the response it
  wrote together with the collection it leaves.  `none` stands for a run-time
  panic (index or slice bound out of range).
* `json.Unmarshal` belongs to the standard library: the handlers take the
  decoder as an argument, so every theorem holds for every decoder.
* The lock is not part of the sequential embedding; the section on concurrent
  `POST`s has it: goroutines run `post` step by step, in any interleaving.
-/

namespace GoRest

/-! ## Data model -/

/-- A `float64`, as its IEEE-754 binary64 bit pattern (bit 63 is the sign). -/
structure Float64 where
  bits : Nat
  deriving DecidableEq, Repr

/-- The Go comparison `x != 0` on a `float64`: false exactly on `+0` and `-0`
(all bits below the sign bit clear), true on everything else. -/
def Float64.neZero (x : Float64) : Bool := x.bits % 2 ^ 63 != 0

/-- The type `Product`: a struct of `Name string` and `Price float64`. -/
structure Product where
  Name : String
  Price : Float64
  deriving DecidableEq, Repr

/-- The type `Products`, a slice of `Product`. -/
abbrev Products := List Product

/-- The type `productHandler`: the mutex (not embedded here) and the field
`products Products`. -/
structure productHandler where
  products : Products
  deriving DecidableEq, Repr

/-- What a handler reads of an `*http.Request`: `r.Method`, `r.URL.String()`,
`r.Header.Get("content-type")` (empty when the header is missing) and the
outcome of `ioutil.ReadAll(r.Body)`. -/
structure Request where
  Method : String
  URL : String
  contentType : String
  Body : Except String String

/-- The value handed to `respondWithJSON` for marshalling. -/
inductive Data where
  | products (ps : Products)
  | product (p : Product)
  | text (s : String)
  | error (msg : String)
  deriving DecidableEq, Repr

/-- What `respondWithJSON` writes: the status code and the marshalled value. -/
structure Response where
  code : Nat
  data : Data
  deriving DecidableEq, Repr

def StatusOK : Nat := 200
def StatusCreated : Nat := 201
def StatusNoContent : Nat := 204
def StatusBadRequest : Nat := 400
def StatusNotFound : Nat := 404
def StatusMethodNotAllowed : Nat := 405
def StatusUnsupportedMediaType : Nat := 415
def StatusInternalServerError : Nat := 500

/-- The function `respondWithJSON(w, code, data)`. -/
def respondWithJSON (code : Nat) (data : Data) : Response := ⟨code, data⟩

/-- The function `respondWithError(w, code, msg)`: the value marshalled is the
map with the single key `error` and the value `msg`. -/
def respondWithError (code : Nat) (msg : String) : Response :=
  respondWithJSON code (Data.error msg)

/-! ## Slices -/

/-- The length `len(s)` as a Go `int`. -/
def len {α : Type} (s : List α) : Int := (s.length : Int)

/-- The read of `s[i]`; `none` is the index-out-of-range panic. -/
def index? {α : Type} (s : List α) (i : Int) : Option α :=
  if 0 ≤ i then s.get? i.toNat else none

/-- The assignment `s[i] = v`; `none` is the index-out-of-range panic. -/
def assign? {α : Type} (s : List α) (i : Int) (v : α) : Option (List α) :=
  if 0 ≤ i ∧ i < len s then some (s.set i.toNat v) else none

/-- The slice `s[:n]`; `none` is the slice-bounds panic. -/
def sliceTo? {α : Type} (s : List α) (n : Int) : Option (List α) :=
  if 0 ≤ n ∧ n ≤ len s then some (s.take n.toNat) else none

/-- The tuple assignment `s[i], s[j] = s[j], s[i]`: both operands are read, then `s[i]` and `s[j]`
are assigned in that order. -/
def swap? {α : Type} (s : List α) (i j : Int) : Option (List α) := do
  let a ← index? s j
  let b ← index? s i
  let s1 ← assign? s i a
  assign? s1 j b

/-! ## `strings.Split` and `strconv.Atoi` -/

/-- The function `strings.Split(s, sep)` for a one-character separator, on the characters
of `s`: the pieces between the separators, `[""]` for the empty string. -/
def splitChars (sep : Char) : List Char → List (List Char)
  | [] => [[]]
  | c :: cs =>
    if c = sep then [] :: splitChars sep cs
    else
      match splitChars sep cs with
      | [] => [[c]]
      | piece :: pieces => (c :: piece) :: pieces

/-- Number of bits of a Go `int` (`strconv.IntSize` on a 64-bit platform). -/
def intSize : Nat := 64

def maxInt : Int := 2 ^ (intSize - 1) - 1

def minInt : Int := -(2 ^ (intSize - 1))

/-- Tells whether the character is one of `'0'` .. `'9'`. -/
def isDigit (c : Char) : Bool := decide (48 ≤ c.toNat) && decide (c.toNat ≤ 57)

/-- The digit loop of `strconv.ParseUint` in base 10: the value of a run of
decimal digits, `none` as soon as a character is not a digit. -/
def digitsValue (cs : List Char) : Option Nat :=
  cs.foldl
    (fun acc c => acc.bind fun a => if isDigit c then some (a * 10 + (c.toNat - 48)) else none)
    (some 0)

/-- The function `strconv.Atoi(s)`: an optional sign, then at least one
decimal digit and nothing else; the value must fit in an `int`.  `none` is the
`*NumError`. -/
def Atoi (s : List Char) : Option Int :=
  match s with
  | [] => none
  | c :: t =>
    let digits := if c = '-' ∨ c = '+' then t else c :: t
    if digits.isEmpty then none
    else
      match digitsValue digits with
      | none => none
      | some v =>
        let n : Int := if c = '-' then -(v : Int) else (v : Int)
        if minInt ≤ n ∧ n ≤ maxInt then some n else none

/-! ## Base-10 integers, as the spec speaks of them -/

/-- The decimal digits of `n`, most significant first; `fuel` bounds their
number. -/
def natDigits : Nat → Nat → List Char
  | 0, _ => []
  | fuel + 1, n =>
    if n < 10 then [Char.ofNat (48 + n)]
    else natDigits fuel (n / 10) ++ [Char.ofNat (48 + n % 10)]

/-- The integer `n` written in base 10, as `strconv.Itoa` writes it: the `<n>`
of the path `/products/<n>`. -/
def Itoa (n : Int) : String :=
  ⟨if n < 0 then '-' :: natDigits (n.natAbs + 1) n.natAbs
    else natDigits (n.natAbs + 1) n.natAbs⟩

/-- The path `/products/<n>`. -/
def productURL (n : Int) : String := "/products/" ++ Itoa n

/-- The value of a run of decimal digits. -/
def decimalValue (cs : List Char) : Nat :=
  cs.foldl (fun a c => a * 10 + (c.toNat - 48)) 0

/-- Tells whether a segment is a base-10 integer: an optional sign followed by
one or more decimal digits. -/
def isIntegerText (t : List Char) : Bool :=
  match t with
  | [] => false
  | c :: cs =>
    if c = '-' ∨ c = '+' then !cs.isEmpty && cs.all isDigit
    else (c :: cs).all isDigit

/-- The integer that a base-10 segment denotes. -/
def integerValue (t : List Char) : Int :=
  match t with
  | [] => 0
  | c :: cs =>
    if c = '-' then -(decimalValue cs : Int)
    else if c = '+' then (decimalValue cs : Int)
    else (decimalValue (c :: cs) : Int)

/-! ## The handler -/

/-- The function `IDFromURL(r)`: the URL is split on `/`; with three parts the
last one, `parts[len(parts)-1]` (always in range there), goes through `Atoi`;
both failures give the error `not found`. -/
def IDFromURL (r : Request) : Except String Int :=
  let parts := splitChars '/' r.URL.data
  if parts.length ≠ 3 then Except.error "not found"
  else
    match parts.get? (parts.length - 1) with
    | none => Except.error "not found"
    | some last =>
      match Atoi last with
      | none => Except.error "not found"
      | some id => Except.ok id

/-- The constructor `newProductHandler()`: the three seeded records, prices 25, 50 and 20. -/
def newProductHandler : productHandler :=
  { products :=
      [ { Name := "Shoes", Price := ⟨0x4039000000000000⟩ },
        { Name := "Webcam", Price := ⟨0x4049000000000000⟩ },
        { Name := "Mic", Price := ⟨0x4034000000000000⟩ } ] }

/-- The method `func (p *productHandler) get(w, r)`. -/
def productHandler.get (p : productHandler) (r : Request) :
    Option (Response × productHandler) :=
  match IDFromURL r with
  | Except.error _ => some (respondWithJSON StatusOK (Data.products p.products), p)
  | Except.ok id =>
    if id ≥ len p.products ∨ id < 0 then
      some (respondWithError StatusNotFound "not found", p)
    else do
      let q ← index? p.products id
      some (respondWithJSON StatusOK (Data.product q), p)

/-- The method `func (p *productHandler) post(w, r)`. -/
def productHandler.post (unmarshal : String → Except String Product)
    (p : productHandler) (r : Request) : Option (Response × productHandler) :=
  match r.Body with
  | Except.error err => some (respondWithError StatusInternalServerError err, p)
  | Except.ok body =>
    if r.contentType ≠ "application/json" then
      some (respondWithError StatusUnsupportedMediaType
        "content type 'application/json' required", p)
    else
      match unmarshal body with
      | Except.error err => some (respondWithError StatusBadRequest err, p)
      | Except.ok product =>
        some (respondWithJSON StatusCreated (Data.product product),
          { products := p.products ++ [product] })

/-- The method `func (p *productHandler) put(w, r)`. -/
def productHandler.put (unmarshal : String → Except String Product)
    (p : productHandler) (r : Request) : Option (Response × productHandler) :=
  match IDFromURL r with
  | Except.error err => some (respondWithError StatusNotFound err, p)
  | Except.ok id =>
    match r.Body with
    | Except.error err => some (respondWithError StatusInternalServerError err, p)
    | Except.ok body =>
      if r.contentType ≠ "application/json" then
        some (respondWithError StatusUnsupportedMediaType
          "content type 'application/json' required", p)
      else
        match unmarshal body with
        | Except.error err => some (respondWithError StatusBadRequest err, p)
        | Except.ok product =>
          if id ≥ len p.products ∨ id < 0 then
            some (respondWithError StatusNotFound "not found", p)
          else do
            let ps1 ←
              if product.Name ≠ "" then do
                let q ← index? p.products id
                assign? p.products id { q with Name := product.Name }
              else some p.products
            let ps2 ←
              if product.Price.neZero then do
                let q ← index? ps1 id
                assign? ps1 id { q with Price := product.Price }
              else some ps1
            let q ← index? ps2 id
            some (respondWithJSON StatusOK (Data.product q), { products := ps2 })

/-- The method `func (p *productHandler) delete(w, r)`. -/
def productHandler.delete (p : productHandler) (r : Request) :
    Option (Response × productHandler) :=
  match IDFromURL r with
  | Except.error err => some (respondWithError StatusNotFound err, p)
  | Except.ok id =>
    if id ≥ len p.products ∨ id < 0 then
      some (respondWithError StatusNotFound "not found", p)
    else do
      let ps1 ←
        if id < len p.products - 1 then swap? p.products (len p.products - 1) id
        else some p.products
      let ps2 ← sliceTo? ps1 (len ps1 - 1)
      some (respondWithJSON StatusNoContent (Data.text ""), { products := ps2 })

/-- The method `func (p *productHandler) ServeHTTP(w, r)`: the switch on
`r.Method`. -/
def productHandler.ServeHTTP (unmarshal : String → Except String Product)
    (p : productHandler) (r : Request) : Option (Response × productHandler) :=
  if r.Method = "GET" then p.get r
  else if r.Method = "POST" then p.post unmarshal r
  else if r.Method = "PUT" ∨ r.Method = "PATCH" then p.put unmarshal r
  else if r.Method = "DELETE" then p.delete r
  else some (respondWithError StatusMethodNotAllowed "invalid method", p)

/-- The record the spec promises after an update of `old` with the decoded
body `b`: a name that is not empty and a price that is not zero overwrite,
the other fields stay. -/
def mergeFields (old b : Product) : Product :=
  { Name := if b.Name ≠ "" then b.Name else old.Name,
    Price := if b.Price.neZero = true then b.Price else old.Price }

/-- The ID the spec reads from a request path: the path splits on `/` in
exactly three segments and the third is a base-10 integer, which is the ID. -/
def specIDFromURL (url : String) : Option Int :=
  match splitChars '/' url.data with
  | [_, _, t] => if isIntegerText t then some (integerValue t) else none
  | _ => none

/-! ## Sample requests -/

/-- A decoder for the sample requests: it decodes the two bodies used in the
examples of the spec, the product `Cable` with the price 5 and the product with
an empty name and the price 30, and rejects every other body. -/
def sampleUnmarshal (body : String) : Except String Product :=
  if body = "\x7b\"name\":\"Cable\",\"price\":5\x7d" then
    Except.ok { Name := "Cable", Price := ⟨0x4014000000000000⟩ }
  else if body = "\x7b\"name\":\"\",\"price\":30\x7d" then
    Except.ok { Name := "", Price := ⟨0x403E000000000000⟩ }
  else Except.error "invalid character"

/-- A request without a body or content type. -/
def bare (method url : String) : Request :=
  { Method := method, URL := url, contentType := "", Body := Except.ok "" }

/-- A request carrying a JSON body. -/
def withJSON (method url body : String) : Request :=
  { Method := method, URL := url, contentType := "application/json", Body := Except.ok body }

/-! ## Concurrent `POST`s -/

/-- The place where a goroutine that runs `post` stands; the product it has
decoded and, between the read and the write of `append`, the value of
`p.products` it has read, are its local variables. -/
inductive PostPC where
  /-- Line 58, nothing done yet. -/
  | entry
  /-- Returned from one of the error branches of lines 60-74, with the answer. -/
  | failed (resp : Response)
  /-- Lines 58-75 passed (`defer p.Unlock()` is registered), before `p.Lock()`. -/
  | decoded (product : Product)
  /-- The call `p.Lock()` has returned: the goroutine holds the lock. -/
  | locked (product : Product)
  /-- Line 77, in `append(p.products, product)`: `p.products` has been read. -/
  | appending (product : Product) (old : Products)
  /-- Line 77 done: the result of `append` is assigned to `p.products`. -/
  | stored (product : Product)
  /-- Line 78 done and the deferred `p.Unlock()` run: returned with 201. -/
  | done (product : Product)
  deriving DecidableEq, Repr

/-- Tells whether the goroutine is between `p.Lock()` and `p.Unlock()`. -/
def PostPC.critical : PostPC → Bool
  | PostPC.locked _ => true
  | PostPC.appending _ _ => true
  | PostPC.stored _ => true
  | _ => false

/-- Tells whether `post` has returned. -/
def PostPC.returned : PostPC → Bool
  | PostPC.failed _ => true
  | PostPC.done _ => true
  | _ => false

/-- The record the goroutine has written into `p.products`, if it has. -/
def PostPC.committed : PostPC → Option Product
  | PostPC.stored product => some product
  | PostPC.done product => some product
  | _ => none

/-- The number of steps the goroutine has left at most. -/
def PostPC.remaining : PostPC → Nat
  | PostPC.entry => 5
  | PostPC.decoded _ => 4
  | PostPC.locked _ => 3
  | PostPC.appending _ _ => 2
  | PostPC.stored _ => 1
  | _ => 0

/-- The answer written by a goroutine that has returned. -/
def PostPC.response? : PostPC → Option Response
  | PostPC.failed resp => some resp
  | PostPC.done product => some (respondWithJSON StatusCreated (Data.product product))
  | _ => none

/-- Lines 58-74 of `post`, which touch neither the lock nor the collection: the
body is read, the content type checked and the body decoded. -/
def postEntry (unmarshal : String → Except String Product) (r : Request) : PostPC :=
  match r.Body with
  | Except.error err => PostPC.failed (respondWithError StatusInternalServerError err)
  | Except.ok body =>
    if r.contentType ≠ "application/json" then
      PostPC.failed (respondWithError StatusUnsupportedMediaType
        "content type 'application/json' required")
    else
      match unmarshal body with
      | Except.error err => PostPC.failed (respondWithError StatusBadRequest err)
      | Except.ok product => PostPC.decoded product

/-- The product a `POST` request appends, `none` when the request is refused. -/
def accepted (unmarshal : String → Except String Product) (r : Request) : Option Product :=
  match postEntry unmarshal r with
  | PostPC.decoded product => some product
  | _ => none

/-- The handler shared by the goroutines that serve the `POST` requests: the
collection, the mutex (the goroutine that holds it, `none` when it is free) and
where each goroutine stands. -/
structure World where
  products : Products
  mutex : Option Nat
  pcs : List PostPC
  deriving DecidableEq, Repr

/-- One step of goroutine `i`, which serves request `i`; `none` when it cannot
move: it has returned, or it waits in `p.Lock()` for the mutex a goroutine
holds.  The read and the write of `p.products = append(p.products, product)`
are two steps, so that other goroutines may run between them. -/
def stepThread (unmarshal : String → Except String Product) (reqs : List Request)
    (i : Nat) (w : World) : Option World :=
  match reqs.get? i, w.pcs.get? i with
  | some r, some PostPC.entry =>
    some { w with pcs := w.pcs.set i (postEntry unmarshal r) }
  | some _, some (PostPC.decoded product) =>
    if w.mutex = none then
      some { w with mutex := some i, pcs := w.pcs.set i (PostPC.locked product) }
    else none
  | some _, some (PostPC.locked product) =>
    some { w with pcs := w.pcs.set i (PostPC.appending product w.products) }
  | some _, some (PostPC.appending product old) =>
    some { w with products := old ++ [product], pcs := w.pcs.set i (PostPC.stored product) }
  | some _, some (PostPC.stored product) =>
    some { w with mutex := none, pcs := w.pcs.set i (PostPC.done product) }
  | _, _ => none

/-- The goroutines run in the order the schedule gives: at each step the
scheduled goroutine makes one step; `none` when it cannot move. -/
def run (unmarshal : String → Except String Product) (reqs : List Request) :
    List Nat → World → Option World
  | [], w => some w
  | i :: rest, w => (stepThread unmarshal reqs i w).bind (run unmarshal reqs rest)

/-- The handler with an empty collection and a free mutex, and one goroutine at
the entry of `post` for each request. -/
def start (reqs : List Request) : World :=
  { products := [], mutex := none, pcs := reqs.map fun _ => PostPC.entry }

/-- Tells whether every goroutine has returned. -/
def World.finished (w : World) : Bool := w.pcs.all PostPC.returned

/-- The steps the goroutines have left at most. -/
def World.remaining (w : World) : Nat := (w.pcs.map PostPC.remaining).sum

/-- The link between a goroutine and the request it serves: what it
has decoded or answered comes from that request. -/
def PostPC.origin (unmarshal : String → Except String Product) (r : Request) :
    PostPC → Prop
  | PostPC.entry => True
  | PostPC.failed resp => postEntry unmarshal r = PostPC.failed resp
  | PostPC.decoded product => postEntry unmarshal r = PostPC.decoded product
  | PostPC.locked product => postEntry unmarshal r = PostPC.decoded product
  | PostPC.appending product _ => postEntry unmarshal r = PostPC.decoded product
  | PostPC.stored product => postEntry unmarshal r = PostPC.decoded product
  | PostPC.done product => postEntry unmarshal r = PostPC.decoded product

/-- What holds of every handler state the goroutines can reach. -/
structure Inv (unmarshal : String → Except String Product) (reqs : List Request)
    (w : World) : Prop where
  size : w.pcs.length = reqs.length
  origin : ∀ (i : Nat) (pc : PostPC) (r : Request),
    w.pcs[i]? = some pc → reqs[i]? = some r → pc.origin unmarshal r
  holder : ∀ (i : Nat) (pc : PostPC),
    w.pcs[i]? = some pc → (pc.critical = true ↔ w.mutex = some i)
  holderLt : ∀ i : Nat, w.mutex = some i → i < w.pcs.length
  snapshot : ∀ (i : Nat) (product : Product) (old : Products),
    w.pcs[i]? = some (PostPC.appending product old) → old = w.products
  perm : List.Perm w.products (w.pcs.filterMap PostPC.committed)

/-- Two `POST` requests sent at the same time: the record `Cable` with the price
5, and a record with an empty name and the price 30. -/
def twoPosts : List Request :=
  [withJSON "POST" "/products" "\x7b\"name\":\"Cable\",\"price\":5\x7d",
   withJSON "POST" "/products" "\x7b\"name\":\"\",\"price\":30\x7d"]

/-! ## Slice lemmas -/

theorem len_nonneg {α : Type} (s : List α) : 0 ≤ len s := by
  unfold len; exact Int.ofNat_nonneg _

theorem index?_natCast {α : Type} (s : List α) (i : Nat) :
    index? s (i : Int) = s[i]? := by
  simp [index?]

theorem assign?_natCast {α : Type} (s : List α) (i : Nat) (v : α) (h : i < s.length) :
    assign? s (i : Int) v = some (s.set i v) := by
  simp [assign?, len, h]

theorem index?_none_of_len_le {α : Type} (s : List α) (i : Int) (h : len s ≤ i) :
    index? s i = none := by
  unfold len at h
  unfold index?
  split
  · rename_i h0
    obtain ⟨k, rfl⟩ := Int.eq_ofNat_of_zero_le h0
    simp only [Int.toNat_ofNat, List.get?_eq_getElem?, List.getElem?_eq_none_iff]
    omega
  · rfl

theorem sliceTo?_natCast {α : Type} (s : List α) (n : Nat) (h : n ≤ s.length) :
    sliceTo? s (n : Int) = some (s.take n) := by
  simp [sliceTo?, len, h]

theorem take_set_of_le {α : Type} (s : List α) (m n : Nat) (a : α) (h : m ≤ n) :
    (s.set n a).take m = s.take m := by
  apply List.ext_getElem?
  intro j
  rw [List.getElem?_take, List.getElem?_take]
  split
  · rw [List.getElem?_set_ne (by omega)]
  · rfl

theorem set_of_getElem? {α : Type} (s : List α) (i : Nat) (a : α) (h : s[i]? = some a) :
    s.set i a = s := by
  apply List.ext_getElem?
  intro j
  by_cases hij : i = j
  · subst hij
    rw [List.getElem?_set_self', h]
    rfl
  · rw [List.getElem?_set_ne hij]

/-! ## What each handler computes -/

/-- A `DELETE` of a valid index answers 204 and leaves the collection with
the last record written over the deleted slot and the last slot cut off. -/
theorem delete_eq (p : productHandler) (r : Request) (i : Nat)
    (hid : IDFromURL r = Except.ok (i : Int)) (hlt : i < p.products.length) :
    ∃ last, p.products[p.products.length - 1]? = some last ∧
      p.delete r = some (respondWithJSON StatusNoContent (Data.text ""),
        { products := (p.products.set i last).take (p.products.length - 1) }) := by
  have hn : p.products.length - 1 < p.products.length := by omega
  refine ⟨p.products[p.products.length - 1], List.getElem?_eq_getElem hn, ?_⟩
  have hcast : len p.products - 1 = ((p.products.length - 1 : Nat) : Int) := by
    unfold len; omega
  have hguard : ¬ ((i : Int) ≥ len p.products ∨ (i : Int) < 0) := by
    unfold len; omega
  unfold productHandler.delete
  rw [hid]
  simp only [hguard, if_false]
  by_cases hlast : i < p.products.length - 1
  · have hc : (i : Int) < len p.products - 1 := by unfold len; omega
    have hl : len ((p.products.set (p.products.length - 1) p.products[i]).set i
        p.products[p.products.length - 1]) - 1 = ((p.products.length - 1 : Nat) : Int) := by
      unfold len; simp only [List.length_set]; omega
    have hsw : swap? p.products (len p.products - 1) (i : Int) =
        some ((p.products.set (p.products.length - 1) p.products[i]).set i
          p.products[p.products.length - 1]) := by
      rw [hcast]
      simp only [swap?, index?_natCast, List.getElem?_eq_getElem hlt,
        List.getElem?_eq_getElem hn, Option.bind_eq_bind, Option.some_bind]
      rw [assign?_natCast _ _ _ hn]
      simp only [Option.some_bind]
      rw [assign?_natCast _ _ _ (by simpa using hlt)]
    rw [if_pos hc, hsw]
    simp only [Option.bind_eq_bind, Option.some_bind]
    rw [hl, sliceTo?_natCast _ _ (by simp)]
    simp only [Option.some_bind]
    have hne : p.products.length - 1 ≠ i := by omega
    rw [List.set_comm _ _ _ hne, take_set_of_le _ _ _ _ (Nat.le_refl _)]
  · have hc : ¬ (i : Int) < len p.products - 1 := by unfold len; omega
    have hi : p.products.length - 1 = i := by omega
    rw [if_neg hc]
    simp only [Option.bind_eq_bind, Option.some_bind]
    rw [hcast, sliceTo?_natCast _ _ (by omega)]
    have hself : p.products.set i p.products[p.products.length - 1] = p.products :=
      set_of_getElem? _ _ _ (by rw [List.getElem?_eq_getElem hlt]; simp only [hi])
    rw [hself]
    rfl

/-- A `PUT` of a valid index with a decodable JSON body answers 200 with the
merged record and stores it in its slot. -/
theorem put_eq (unmarshal : String → Except String Product) (p : productHandler)
    (r : Request) (i : Nat) (body : String) (b : Product)
    (hid : IDFromURL r = Except.ok (i : Int)) (hbody : r.Body = Except.ok body)
    (hct : r.contentType = "application/json") (hum : unmarshal body = Except.ok b)
    (hlt : i < p.products.length) :
    ∃ old, p.products[i]? = some old ∧
      p.put unmarshal r = some (respondWithJSON StatusOK (Data.product (mergeFields old b)),
        { products := p.products.set i (mergeFields old b) }) := by
  refine ⟨p.products[i], List.getElem?_eq_getElem hlt, ?_⟩
  have hguard : ¬ ((i : Int) ≥ len p.products ∨ (i : Int) < 0) := by
    unfold len; omega
  have hself : p.products.set i p.products[i] = p.products :=
    set_of_getElem? _ _ _ (List.getElem?_eq_getElem hlt)
  unfold productHandler.put
  rw [hid]
  simp only [hbody, hct, hum, hguard, if_false, ne_eq, not_true_eq_false]
  by_cases hname : b.Name = "" <;> by_cases hprice : b.Price.neZero = true
  · simp [hname, hprice, mergeFields, index?_natCast, assign?_natCast, hlt]
  · simp [hname, hprice, mergeFields, index?_natCast, assign?_natCast, hlt, hself]
  · simp [hname, hprice, mergeFields, index?_natCast, assign?_natCast, hlt]
  · simp [hname, hprice, mergeFields, index?_natCast, assign?_natCast, hlt]

/-- A `GET` of a valid index answers 200 with the record in that slot. -/
theorem get_eq (p : productHandler) (r : Request) (i : Nat)
    (hid : IDFromURL r = Except.ok (i : Int)) (hlt : i < p.products.length) :
    ∃ q, p.products[i]? = some q ∧
      p.get r = some (respondWithJSON StatusOK (Data.product q), p) := by
  refine ⟨p.products[i], List.getElem?_eq_getElem hlt, ?_⟩
  have hguard : ¬ ((i : Int) ≥ len p.products ∨ (i : Int) < 0) := by
    unfold len; omega
  unfold productHandler.get
  rw [hid]
  simp [hguard, index?_natCast, hlt]

/-- A `GET` of an index outside the collection answers 404. -/
theorem get_out_of_range (p : productHandler) (r : Request) (id : Int)
    (hid : IDFromURL r = Except.ok id) (hout : id < 0 ∨ len p.products ≤ id) :
    p.get r = some (respondWithError StatusNotFound "not found", p) := by
  have hguard : id ≥ len p.products ∨ id < 0 := by omega
  unfold productHandler.get
  rw [hid]
  simp [hguard]

/-! ## Decimal digits -/

theorem digitsValue_fold_none (cs : List Char) :
    cs.foldl
      (fun acc c => acc.bind fun a =>
        if isDigit c then some (a * 10 + (c.toNat - 48)) else none) none = none := by
  induction cs with
  | nil => rfl
  | cons c cs ih => simpa using ih

theorem digitsValue_fold (cs : List Char) (a : Nat) :
    cs.foldl
      (fun acc c => acc.bind fun a =>
        if isDigit c then some (a * 10 + (c.toNat - 48)) else none) (some a)
      = if cs.all isDigit then some (cs.foldl (fun a c => a * 10 + (c.toNat - 48)) a)
        else none := by
  induction cs generalizing a with
  | nil => rfl
  | cons c cs ih =>
    simp only [List.foldl_cons, Option.some_bind, List.all_cons]
    by_cases hc : isDigit c = true
    · simp only [hc, if_true, Bool.true_and]
      exact ih _
    · simp only [hc, Bool.false_and, if_false]
      simpa using digitsValue_fold_none cs

/-- The digit loop succeeds exactly on runs of digits, with their value. -/
theorem digitsValue_eq (cs : List Char) :
    digitsValue cs = if cs.all isDigit then some (decimalValue cs) else none :=
  digitsValue_fold cs 0

theorem inRange_eq_some_iff (v n : Int) :
    (if minInt ≤ v ∧ v ≤ maxInt then some v else none) = some n ↔
      v = n ∧ minInt ≤ n ∧ n ≤ maxInt := by
  constructor
  · intro h
    split at h
    · rename_i hr
      cases h
      exact ⟨rfl, hr.1, hr.2⟩
    · cases h
  · rintro ⟨rfl, hlo, hhi⟩
    rw [if_pos ⟨hlo, hhi⟩]

theorem range_and_eq (v n : Int) :
    ((minInt ≤ v ∧ v ≤ maxInt) ∧ v = n) ↔ (v = n ∧ minInt ≤ n ∧ n ≤ maxInt) := by
  constructor
  · rintro ⟨⟨hlo, hhi⟩, rfl⟩
    exact ⟨rfl, hlo, hhi⟩
  · rintro ⟨rfl, hlo, hhi⟩
    exact ⟨⟨hlo, hhi⟩, rfl⟩

/-- The function `Atoi` returns `n` exactly on the base-10 integers whose value `n`
fits in an `int`. -/
theorem Atoi_eq_some_iff (t : List Char) (n : Int) :
    Atoi t = some n ↔
      isIntegerText t = true ∧ integerValue t = n ∧ minInt ≤ n ∧ n ≤ maxInt := by
  cases t with
  | nil => simp [Atoi, isIntegerText]
  | cons c cs =>
    by_cases hm : c = '-'
    · subst hm
      cases cs with
      | nil => simp [Atoi, isIntegerText]
      | cons d ds =>
        by_cases hall : (d :: ds).all isDigit = true
        · simp [Atoi, isIntegerText, integerValue, digitsValue_eq, hall, inRange_eq_some_iff]
          exact range_and_eq _ _
        · simp [Atoi, isIntegerText, integerValue, digitsValue_eq, hall]
    · by_cases hp : c = '+'
      · subst hp
        cases cs with
        | nil => simp [Atoi, isIntegerText]
        | cons d ds =>
          by_cases hall : (d :: ds).all isDigit = true
          · simp [Atoi, isIntegerText, integerValue, digitsValue_eq, hall, inRange_eq_some_iff]
            exact range_and_eq _ _
          · simp [Atoi, isIntegerText, integerValue, digitsValue_eq, hall]
      · by_cases hall : (c :: cs).all isDigit = true
        · simp [Atoi, isIntegerText, integerValue, digitsValue_eq, hall, inRange_eq_some_iff, hm, hp]
          exact range_and_eq _ _
        · simp [Atoi, isIntegerText, integerValue, digitsValue_eq, hall, hm, hp]

theorem toNat_ofNat_digit (d : Nat) (h : d < 10) : (Char.ofNat (48 + d)).toNat = 48 + d := by
  interval_cases d <;> rfl

theorem isDigit_ofNat_digit (d : Nat) (h : d < 10) : isDigit (Char.ofNat (48 + d)) = true := by
  simp [isDigit, toNat_ofNat_digit d h]
  omega

theorem isDigit_ne_sign (c : Char) (h : isDigit c = true) : c ≠ '-' ∧ c ≠ '+' ∧ c ≠ '/' := by
  refine ⟨?_, ?_, ?_⟩ <;> rintro rfl <;> exact absurd h (by decide)

theorem decimalValue_append (cs : List Char) (c : Char) :
    decimalValue (cs ++ [c]) = decimalValue cs * 10 + (c.toNat - 48) := by
  simp [decimalValue, List.foldl_append]

theorem natDigits_all (fuel n : Nat) : (natDigits fuel n).all isDigit = true := by
  induction fuel generalizing n with
  | zero => rfl
  | succ fuel ih =>
    unfold natDigits
    split
    · rename_i h
      simp [isDigit_ofNat_digit n h]
    · rw [List.all_append, ih]
      simp [isDigit_ofNat_digit (n % 10) (Nat.mod_lt _ (by decide))]

theorem natDigits_value (fuel n : Nat) (h : n < fuel) : decimalValue (natDigits fuel n) = n := by
  induction fuel generalizing n with
  | zero => omega
  | succ fuel ih =>
    unfold natDigits
    split
    · rename_i hn
      simp [decimalValue, toNat_ofNat_digit n hn]
    · rw [decimalValue_append, ih (n / 10) (by omega),
        toNat_ofNat_digit (n % 10) (Nat.mod_lt _ (by decide))]
      omega

theorem natDigits_ne_nil (fuel n : Nat) : natDigits (fuel + 1) n ≠ [] := by
  unfold natDigits
  split <;> simp

/-- The base-10 writing of an integer is a base-10 integer, and denotes it. -/
theorem Itoa_integerText (n : Int) :
    isIntegerText (Itoa n).data = true ∧ integerValue (Itoa n).data = n := by
  have hall := natDigits_all (n.natAbs + 1) n.natAbs
  have hval := natDigits_value (n.natAbs + 1) n.natAbs (by omega)
  have hne := natDigits_ne_nil n.natAbs n.natAbs
  by_cases hneg : n < 0
  · simp only [Itoa, hneg, if_true, isIntegerText, integerValue, true_or, hall, hval,
      Bool.and_true, Bool.not_eq_true', List.isEmpty_eq_false]
    exact ⟨hne, by omega⟩
  · simp only [Itoa, hneg, if_false]
    cases hd : natDigits (n.natAbs + 1) n.natAbs with
    | nil => exact absurd hd hne
    | cons c cs =>
      rw [hd] at hall hval
      have hc : isDigit c = true := by
        simp only [List.all_cons, Bool.and_eq_true] at hall
        exact hall.1
      obtain ⟨h1, h2, -⟩ := isDigit_ne_sign c hc
      simp only [isIntegerText, integerValue, h1, h2, or_self, if_false, hall, hval, true_and]
      omega

/-- An integer that fits in an `int` is read back from its base-10 writing. -/
theorem Atoi_Itoa (n : Int) (hlo : minInt ≤ n) (hhi : n ≤ maxInt) :
    Atoi (Itoa n).data = some n :=
  (Atoi_eq_some_iff _ _).2 ⟨(Itoa_integerText n).1, (Itoa_integerText n).2, hlo, hhi⟩

/-! ## Path splitting and ID extraction -/

theorem splitChars_no_sep (sep : Char) (t : List Char) (h : ∀ c ∈ t, c ≠ sep) :
    splitChars sep t = [t] := by
  induction t with
  | nil => rfl
  | cons c cs ih =>
    have hc : c ≠ sep := h c (List.mem_cons_self _ _)
    have hcs : splitChars sep cs = [cs] := ih fun d hd => h d (List.mem_cons_of_mem _ hd)
    simp [splitChars, hc, hcs]

theorem Itoa_no_slash (n : Int) : ∀ c ∈ (Itoa n).data, c ≠ '/' := by
  have hall := natDigits_all (n.natAbs + 1) n.natAbs
  rw [List.all_eq_true] at hall
  intro c hc
  unfold Itoa at hc
  by_cases hneg : n < 0
  · simp only [hneg, if_true, List.mem_cons] at hc
    rcases hc with rfl | hc
    · decide
    · exact (isDigit_ne_sign c (hall c hc)).2.2
  · simp only [hneg, if_false] at hc
    exact (isDigit_ne_sign c (hall c hc)).2.2

theorem splitChars_productURL (n : Int) :
    splitChars '/' (productURL n).data = [[], "products".data, (Itoa n).data] := by
  have hsplit := splitChars_no_sep '/' (Itoa n).data (Itoa_no_slash n)
  have hdata : (productURL n).data
      = '/' :: 'p' :: 'r' :: 'o' :: 'd' :: 'u' :: 'c' :: 't' :: 's' :: '/' :: (Itoa n).data := by
    simp only [productURL, String.data_append]
    rfl
  rw [hdata]
  simp [splitChars, hsplit]

/-- The function `IDFromURL` returns `id` exactly when the URL splits in three
segments and `Atoi` reads `id` from the third. -/
theorem IDFromURL_eq_ok_iff (r : Request) (id : Int) :
    IDFromURL r = Except.ok id ↔
      ∃ a b t, splitChars '/' r.URL.data = [a, b, t] ∧ Atoi t = some id := by
  unfold IDFromURL
  constructor
  · intro h
    match hp : splitChars '/' r.URL.data with
    | [a, b, t] =>
      refine ⟨a, b, t, rfl, ?_⟩
      simp only [hp, List.length_cons, List.length_nil] at h
      cases ha : Atoi t with
      | none => simp [ha] at h
      | some v =>
        simp [ha] at h
        rw [h]
    | [] => simp [hp] at h
    | [_] => simp [hp] at h
    | [_, _] => simp [hp] at h
    | _ :: _ :: _ :: _ :: _ => simp [hp] at h
  · rintro ⟨a, b, t, hp, ha⟩
    simp [hp, ha]

/-- Every failure of `IDFromURL` carries the message `not found`. -/
theorem IDFromURL_error (r : Request) (e : String) (h : IDFromURL r = Except.error e) :
    e = "not found" := by
  unfold IDFromURL at h
  simp only at h
  split at h
  · cases h; rfl
  · split at h
    · cases h; rfl
    · split at h
      · cases h; rfl
      · cases h

/-- A request for `/products/<n>` with `n` in the range of `int` yields `n`. -/
theorem IDFromURL_productURL (r : Request) (n : Int) (hurl : r.URL = productURL n)
    (hlo : minInt ≤ n) (hhi : n ≤ maxInt) : IDFromURL r = Except.ok n :=
  (IDFromURL_eq_ok_iff r n).2
    ⟨[], "products".data, (Itoa n).data, by rw [hurl]; exact splitChars_productURL n,
      Atoi_Itoa n hlo hhi⟩

/-! ## Every handler answers, and an error answer leaves the collection -/

theorem get_total (p : productHandler) (r : Request) :
    ∃ resp, p.get r = some (resp, p) ∧ resp.code ≠ StatusMethodNotAllowed := by
  cases hid : IDFromURL r with
  | error e => exact ⟨_, by unfold productHandler.get; rw [hid], by simp [respondWithJSON, respondWithError, StatusOK, StatusCreated, StatusNoContent,
            StatusBadRequest, StatusNotFound, StatusMethodNotAllowed, StatusUnsupportedMediaType,
            StatusInternalServerError]⟩
  | ok id =>
    by_cases hout : id < 0 ∨ len p.products ≤ id
    · exact ⟨_, get_out_of_range p r id hid hout, by simp [respondWithJSON, respondWithError, StatusOK, StatusCreated, StatusNoContent,
            StatusBadRequest, StatusNotFound, StatusMethodNotAllowed, StatusUnsupportedMediaType,
            StatusInternalServerError]⟩
    · have h0 : 0 ≤ id := by omega
      obtain ⟨i, rfl⟩ := Int.eq_ofNat_of_zero_le h0
      have hlt : i < p.products.length := by unfold len at hout; omega
      obtain ⟨q, -, hq⟩ := get_eq p r i hid hlt
      exact ⟨_, hq, by simp [respondWithJSON, respondWithError, StatusOK, StatusCreated, StatusNoContent,
            StatusBadRequest, StatusNotFound, StatusMethodNotAllowed, StatusUnsupportedMediaType,
            StatusInternalServerError]⟩

theorem post_total (unmarshal : String → Except String Product) (p : productHandler)
    (r : Request) :
    ∃ resp p', p.post unmarshal r = some (resp, p') ∧ resp.code ≠ StatusMethodNotAllowed ∧
      (400 ≤ resp.code → p' = p) := by
  unfold productHandler.post
  cases hb : r.Body with
  | error e => exact ⟨_, _, rfl, by simp [respondWithJSON, respondWithError, StatusOK, StatusCreated, StatusNoContent,
            StatusBadRequest, StatusNotFound, StatusMethodNotAllowed, StatusUnsupportedMediaType,
            StatusInternalServerError], fun _ => rfl⟩
  | ok body =>
    by_cases hct : r.contentType = "application/json"
    · cases hu : unmarshal body with
      | error e => exact ⟨_, _, by simp only [hct, hu]; rfl, by simp [respondWithJSON, respondWithError, StatusOK, StatusCreated, StatusNoContent,
            StatusBadRequest, StatusNotFound, StatusMethodNotAllowed, StatusUnsupportedMediaType,
            StatusInternalServerError], fun _ => rfl⟩
      | ok b =>
        exact ⟨_, _, by simp only [hct, hu]; rfl, by simp [respondWithJSON, respondWithError, StatusOK, StatusCreated, StatusNoContent,
            StatusBadRequest, StatusNotFound, StatusMethodNotAllowed, StatusUnsupportedMediaType,
            StatusInternalServerError],
          fun h => absurd h (by simp [respondWithJSON, StatusOK, StatusCreated, StatusNoContent])⟩
    · refine ⟨respondWithError StatusUnsupportedMediaType
        "content type 'application/json' required", p, ?_, ?_, fun _ => rfl⟩
      · simp only [ne_eq, hct, not_false_eq_true, if_true]
      · simp [respondWithJSON, respondWithError, StatusMethodNotAllowed,
          StatusUnsupportedMediaType]

theorem put_total (unmarshal : String → Except String Product) (p : productHandler)
    (r : Request) :
    ∃ resp p', p.put unmarshal r = some (resp, p') ∧ resp.code ≠ StatusMethodNotAllowed ∧
      (400 ≤ resp.code → p' = p) := by
  cases hid : IDFromURL r with
  | error e =>
    exact ⟨_, _, by unfold productHandler.put; rw [hid], by simp [respondWithJSON, respondWithError, StatusOK, StatusCreated, StatusNoContent,
            StatusBadRequest, StatusNotFound, StatusMethodNotAllowed, StatusUnsupportedMediaType,
            StatusInternalServerError], fun _ => rfl⟩
  | ok id =>
    cases hb : r.Body with
    | error e =>
      exact ⟨_, _, by unfold productHandler.put; rw [hid, hb], by simp [respondWithJSON, respondWithError, StatusOK, StatusCreated, StatusNoContent,
            StatusBadRequest, StatusNotFound, StatusMethodNotAllowed, StatusUnsupportedMediaType,
            StatusInternalServerError], fun _ => rfl⟩
    | ok body =>
      by_cases hct : r.contentType = "application/json"
      · cases hu : unmarshal body with
        | error e =>
          exact ⟨_, _, by unfold productHandler.put; simp only [hid, hb, hct, hu]; rfl,
            by simp [respondWithJSON, respondWithError, StatusOK, StatusCreated, StatusNoContent,
            StatusBadRequest, StatusNotFound, StatusMethodNotAllowed, StatusUnsupportedMediaType,
            StatusInternalServerError], fun _ => rfl⟩
        | ok b =>
          by_cases hout : id ≥ len p.products ∨ id < 0
          · exact ⟨_, _, by unfold productHandler.put; simp only [hid, hb, hct, hu, hout]; rfl,
              by simp [respondWithJSON, respondWithError, StatusOK, StatusCreated, StatusNoContent,
            StatusBadRequest, StatusNotFound, StatusMethodNotAllowed, StatusUnsupportedMediaType,
            StatusInternalServerError], fun _ => rfl⟩
          · have h0 : 0 ≤ id := by omega
            obtain ⟨i, rfl⟩ := Int.eq_ofNat_of_zero_le h0
            have hlt : i < p.products.length := by unfold len at hout; omega
            obtain ⟨old, -, hq⟩ := put_eq unmarshal p r i body b hid hb hct hu hlt
            exact ⟨_, _, hq, by simp [respondWithJSON, respondWithError, StatusOK, StatusCreated, StatusNoContent,
            StatusBadRequest, StatusNotFound, StatusMethodNotAllowed, StatusUnsupportedMediaType,
            StatusInternalServerError], fun h => absurd h (by simp [respondWithJSON, StatusOK, StatusCreated, StatusNoContent])⟩
      · exact ⟨_, _, by unfold productHandler.put; simp only [hid, hb]; rw [if_pos hct],
          by simp [respondWithJSON, respondWithError, StatusOK, StatusCreated, StatusNoContent,
            StatusBadRequest, StatusNotFound, StatusMethodNotAllowed, StatusUnsupportedMediaType,
            StatusInternalServerError], fun _ => rfl⟩

theorem delete_total (p : productHandler) (r : Request) :
    ∃ resp p', p.delete r = some (resp, p') ∧ resp.code ≠ StatusMethodNotAllowed ∧
      (400 ≤ resp.code → p' = p) := by
  cases hid : IDFromURL r with
  | error e =>
    exact ⟨_, _, by unfold productHandler.delete; rw [hid], by simp [respondWithJSON, respondWithError, StatusOK, StatusCreated, StatusNoContent,
            StatusBadRequest, StatusNotFound, StatusMethodNotAllowed, StatusUnsupportedMediaType,
            StatusInternalServerError], fun _ => rfl⟩
  | ok id =>
    by_cases hout : id ≥ len p.products ∨ id < 0
    · exact ⟨_, _, by unfold productHandler.delete; simp only [hid, hout]; rfl,
        by simp [respondWithJSON, respondWithError, StatusOK, StatusCreated, StatusNoContent,
            StatusBadRequest, StatusNotFound, StatusMethodNotAllowed, StatusUnsupportedMediaType,
            StatusInternalServerError], fun _ => rfl⟩
    · have h0 : 0 ≤ id := by omega
      obtain ⟨i, rfl⟩ := Int.eq_ofNat_of_zero_le h0
      have hlt : i < p.products.length := by unfold len at hout; omega
      obtain ⟨last, -, hq⟩ := delete_eq p r i hid hlt
      exact ⟨_, _, hq, by simp [respondWithJSON, respondWithError, StatusOK, StatusCreated, StatusNoContent,
            StatusBadRequest, StatusNotFound, StatusMethodNotAllowed, StatusUnsupportedMediaType,
            StatusInternalServerError], fun h => absurd h (by simp [respondWithJSON, StatusOK, StatusCreated, StatusNoContent])⟩

/-! ## Dispatch on the method -/

theorem ServeHTTP_GET (unmarshal : String → Except String Product) (p : productHandler)
    (r : Request) (h : r.Method = "GET") : p.ServeHTTP unmarshal r = p.get r := by
  simp [productHandler.ServeHTTP, h]

theorem ServeHTTP_POST (unmarshal : String → Except String Product) (p : productHandler)
    (r : Request) (h : r.Method = "POST") : p.ServeHTTP unmarshal r = p.post unmarshal r := by
  simp [productHandler.ServeHTTP, h]

theorem ServeHTTP_PUT (unmarshal : String → Except String Product) (p : productHandler)
    (r : Request) (h : r.Method = "PUT" ∨ r.Method = "PATCH") :
    p.ServeHTTP unmarshal r = p.put unmarshal r := by
  rcases h with h | h <;> simp [productHandler.ServeHTTP, h]

theorem ServeHTTP_DELETE (unmarshal : String → Except String Product) (p : productHandler)
    (r : Request) (h : r.Method = "DELETE") : p.ServeHTTP unmarshal r = p.delete r := by
  simp [productHandler.ServeHTTP, h]

theorem ServeHTTP_other (unmarshal : String → Except String Product) (p : productHandler)
    (r : Request) (h : r.Method ∉ ["GET", "POST", "PUT", "PATCH", "DELETE"]) :
    p.ServeHTTP unmarshal r
      = some (respondWithError StatusMethodNotAllowed "invalid method", p) := by
  simp only [List.mem_cons, List.mem_singleton, List.not_mem_nil, or_false, not_or] at h
  simp [productHandler.ServeHTTP, h]

/-! ## The claims -/

/-- C1. A `DELETE` whose path yields a valid `id` answers 204 and leaves a
collection shorter by one, in which slot `id` holds the former last record
(when `id` was not the last index) and every other remaining slot holds what
it held; the old last index is no longer valid (a `GET` of it answers 404),
and a following `GET` of `id` returns the former last record. -/
theorem delete_moves_last_into_slot (unmarshal : String → Except String Product)
    (p : productHandler) (r : Request) (id : Int)
    (hm : r.Method = "DELETE") (hid : IDFromURL r = Except.ok id)
    (h0 : 0 ≤ id) (hlt : id < len p.products) :
    ∃ p', p.ServeHTTP unmarshal r
        = some (respondWithJSON StatusNoContent (Data.text ""), p') ∧
      len p'.products = len p.products - 1 ∧
      (id < len p.products - 1 →
        index? p'.products id = index? p.products (len p.products - 1)) ∧
      (∀ j : Int, 0 ≤ j → j < len p.products - 1 → j ≠ id →
        index? p'.products j = index? p.products j) ∧
      index? p'.products (len p.products - 1) = none ∧
      (∀ g : Request, g.Method = "GET" → IDFromURL g = Except.ok (len p.products - 1) →
        p'.ServeHTTP unmarshal g = some (respondWithError StatusNotFound "not found", p')) ∧
      (id < len p.products - 1 →
        ∃ last, index? p.products (len p.products - 1) = some last ∧
          ∀ g : Request, g.Method = "GET" → IDFromURL g = Except.ok id →
            p'.ServeHTTP unmarshal g
              = some (respondWithJSON StatusOK (Data.product last), p')) := by
  obtain ⟨i, rfl⟩ := Int.eq_ofNat_of_zero_le h0
  have hi : i < p.products.length := by unfold len at hlt; omega
  obtain ⟨last, hlast, hdel⟩ := delete_eq p r i hid hi
  have hcast : len p.products - 1 = ((p.products.length - 1 : Nat) : Int) := by
    unfold len; omega
  have hlen : len ((p.products.set i last).take (p.products.length - 1))
      = len p.products - 1 := by
    unfold len; simp only [List.length_take, List.length_set]; omega
  have hslot : i < p.products.length - 1 →
      ((p.products.set i last).take (p.products.length - 1))[i]? = some last := by
    intro h
    rw [List.getElem?_take_of_lt h, List.getElem?_set_self hi]
  refine ⟨_, by rw [ServeHTTP_DELETE unmarshal p r hm]; exact hdel, hlen, ?_, ?_, ?_, ?_, ?_⟩
  · intro h
    rw [hcast, index?_natCast, index?_natCast, hlast]
    exact hslot (by unfold len at h; omega)
  · intro j hj0 hjlt hne
    obtain ⟨k, rfl⟩ := Int.eq_ofNat_of_zero_le hj0
    have hk : k < p.products.length - 1 := by unfold len at hjlt; omega
    rw [index?_natCast, index?_natCast, List.getElem?_take_of_lt hk,
      List.getElem?_set_ne (by omega)]
  · exact index?_none_of_len_le _ _ (by rw [hlen])
  · intro g hg hgid
    rw [ServeHTTP_GET unmarshal _ g hg]
    exact get_out_of_range _ g _ hgid (Or.inr (by rw [hlen]))
  · intro h
    have hi' : i < p.products.length - 1 := by unfold len at h; omega
    refine ⟨last, by rw [hcast, index?_natCast]; exact hlast, ?_⟩
    intro g hg hgid
    rw [ServeHTTP_GET unmarshal _ g hg]
    obtain ⟨q, hq, hget⟩ := get_eq ⟨(p.products.set i last).take (p.products.length - 1)⟩ g i
      hgid (by simp only [List.length_take, List.length_set]; omega)
    rw [hslot hi'] at hq
    cases hq
    exact hget

/-- Witness for C1: `DELETE /products/0` on the seed leaves `[Mic, Webcam]`, and
a following `GET /products/0` returns `Mic`. -/
theorem delete_moves_last_into_slot_witness :
    newProductHandler.ServeHTTP sampleUnmarshal (bare "DELETE" "/products/0")
        = some (respondWithJSON StatusNoContent (Data.text ""),
            { products := [⟨"Mic", ⟨0x4034000000000000⟩⟩, ⟨"Webcam", ⟨0x4049000000000000⟩⟩] }) ∧
      productHandler.ServeHTTP sampleUnmarshal
          { products := [⟨"Mic", ⟨0x4034000000000000⟩⟩, ⟨"Webcam", ⟨0x4049000000000000⟩⟩] }
          (bare "GET" "/products/0")
        = some (respondWithJSON StatusOK (Data.product ⟨"Mic", ⟨0x4034000000000000⟩⟩),
            { products := [⟨"Mic", ⟨0x4034000000000000⟩⟩, ⟨"Webcam", ⟨0x4049000000000000⟩⟩] }) := by
  obtain ⟨p', hdel, -, -, -, -, -, hget⟩ :=
    delete_moves_last_into_slot sampleUnmarshal newProductHandler
      (bare "DELETE" "/products/0") 0 rfl rfl (by decide) (by decide)
  have hrun : newProductHandler.ServeHTTP sampleUnmarshal (bare "DELETE" "/products/0")
      = some (respondWithJSON StatusNoContent (Data.text ""),
          { products := [⟨"Mic", ⟨0x4034000000000000⟩⟩, ⟨"Webcam", ⟨0x4049000000000000⟩⟩] }) := by
    decide
  have hp' : p' = { products := [⟨"Mic", ⟨0x4034000000000000⟩⟩,
      ⟨"Webcam", ⟨0x4049000000000000⟩⟩] } := by
    rw [hrun] at hdel
    cases hdel
    rfl
  subst hp'
  obtain ⟨last, hlast, hg⟩ := hget (by decide)
  have hl : last = ⟨"Mic", ⟨0x4034000000000000⟩⟩ :=
    (Option.some.inj hlast).symm
  subst hl
  exact ⟨hrun, hg (bare "GET" "/products/0") rfl rfl⟩

/-- C2. A `PUT` or `PATCH` of a valid `id` with content type `application/json`
and a body that decodes to `b` answers 200 with the merged record, keeps the
length and every other record, and stores in slot `id` the record whose name is
the name of `b` when that is not empty and whose price is the price of `b` when
that is not zero, the old field otherwise; a body with an empty name and a zero
price changes nothing. -/
theorem put_merges_fields (unmarshal : String → Except String Product)
    (p : productHandler) (r : Request) (id : Int) (body : String) (b : Product)
    (hm : r.Method = "PUT" ∨ r.Method = "PATCH") (hid : IDFromURL r = Except.ok id)
    (h0 : 0 ≤ id) (hlt : id < len p.products)
    (hct : r.contentType = "application/json") (hbody : r.Body = Except.ok body)
    (hum : unmarshal body = Except.ok b) :
    ∃ old p', index? p.products id = some old ∧
      p.ServeHTTP unmarshal r
        = some (respondWithJSON StatusOK (Data.product (mergeFields old b)), p') ∧
      len p'.products = len p.products ∧
      index? p'.products id = some (mergeFields old b) ∧
      (∀ j : Int, j ≠ id → index? p'.products j = index? p.products j) ∧
      (mergeFields old b).Name = (if b.Name = "" then old.Name else b.Name) ∧
      (mergeFields old b).Price = (if b.Price.neZero = true then b.Price else old.Price) ∧
      (b.Name = "" → b.Price.neZero = false → p' = p) := by
  obtain ⟨i, rfl⟩ := Int.eq_ofNat_of_zero_le h0
  have hi : i < p.products.length := by unfold len at hlt; omega
  obtain ⟨old, hold, hput⟩ := put_eq unmarshal p r i body b hid hbody hct hum hi
  refine ⟨old, _, by rw [index?_natCast]; exact hold,
    by rw [ServeHTTP_PUT unmarshal p r hm]; exact hput, ?_, ?_, ?_, ?_, rfl, ?_⟩
  · unfold len; simp only [List.length_set]
  · rw [index?_natCast, List.getElem?_set_self hi]
  · intro j hne
    by_cases hj : 0 ≤ j
    · obtain ⟨k, rfl⟩ := Int.eq_ofNat_of_zero_le hj
      rw [index?_natCast, index?_natCast, List.getElem?_set_ne (by omega)]
    · simp [index?, hj]
  · by_cases hn : b.Name = "" <;> simp [mergeFields, hn]
  · intro hn hp
    have hsame : mergeFields old b = old := by
      cases old
      simp [mergeFields, hn, hp]
    rw [hsame, set_of_getElem? _ _ _ hold]

/-- Witness for C2: `PUT /products/0` with an empty name and the price 30 on the
seed answers 200 and leaves `Shoes` with the price 30 in slot 0. -/
theorem put_merges_fields_witness :
    newProductHandler.ServeHTTP sampleUnmarshal
        (withJSON "PUT" "/products/0" "\x7b\"name\":\"\",\"price\":30\x7d")
      = some (respondWithJSON StatusOK (Data.product ⟨"Shoes", ⟨0x403E000000000000⟩⟩),
          { products := [⟨"Shoes", ⟨0x403E000000000000⟩⟩, ⟨"Webcam", ⟨0x4049000000000000⟩⟩,
              ⟨"Mic", ⟨0x4034000000000000⟩⟩] }) := by
  obtain ⟨old, p', hold, hput, -⟩ :=
    put_merges_fields sampleUnmarshal newProductHandler
      (withJSON "PUT" "/products/0" "\x7b\"name\":\"\",\"price\":30\x7d") 0
      "\x7b\"name\":\"\",\"price\":30\x7d" ⟨"", ⟨0x403E000000000000⟩⟩
      (Or.inl rfl) rfl (by decide) (by decide) rfl rfl rfl
  have hrun : newProductHandler.ServeHTTP sampleUnmarshal
      (withJSON "PUT" "/products/0" "\x7b\"name\":\"\",\"price\":30\x7d")
      = some (respondWithJSON StatusOK (Data.product ⟨"Shoes", ⟨0x403E000000000000⟩⟩),
          { products := [⟨"Shoes", ⟨0x403E000000000000⟩⟩, ⟨"Webcam", ⟨0x4049000000000000⟩⟩,
              ⟨"Mic", ⟨0x4034000000000000⟩⟩] }) := by
    decide
  exact hput.trans (hput.symm.trans hrun)

/-- C3. A `POST` with content type `application/json` whose body decodes to
`prod` answers 201 with `prod` and leaves the collection with `prod` appended:
one record more, every earlier slot unchanged, `prod` in the slot numbered by
the former length, and a following `GET /products/<former length>` answers 200
with `prod` (a slice length is an `int`, so it fits in one). -/
theorem post_appends (unmarshal : String → Except String Product)
    (p : productHandler) (r : Request) (body : String) (prod : Product)
    (hm : r.Method = "POST") (hct : r.contentType = "application/json")
    (hbody : r.Body = Except.ok body) (hum : unmarshal body = Except.ok prod)
    (hlen : len p.products ≤ maxInt) :
    p.ServeHTTP unmarshal r
        = some (respondWithJSON StatusCreated (Data.product prod),
            { products := p.products ++ [prod] }) ∧
      len (p.products ++ [prod]) = len p.products + 1 ∧
      (∀ j : Int, j < len p.products →
        index? (p.products ++ [prod]) j = index? p.products j) ∧
      index? (p.products ++ [prod]) (len p.products) = some prod ∧
      (∀ g : Request, g.Method = "GET" → g.URL = productURL (len p.products) →
        productHandler.ServeHTTP unmarshal { products := p.products ++ [prod] } g
          = some (respondWithJSON StatusOK (Data.product prod),
              { products := p.products ++ [prod] })) := by
  have hslot : (p.products ++ [prod])[p.products.length]? = some prod := by
    rw [List.getElem?_append_right (Nat.le_refl _)]
    simp
  refine ⟨?_, ?_, ?_, ?_, ?_⟩
  · rw [ServeHTTP_POST unmarshal p r hm]
    unfold productHandler.post
    simp [hbody, hct, hum]
  · unfold len; simp
  · intro j hj
    by_cases hj0 : 0 ≤ j
    · obtain ⟨k, rfl⟩ := Int.eq_ofNat_of_zero_le hj0
      have hk : k < p.products.length := by unfold len at hj; omega
      rw [index?_natCast, index?_natCast, List.getElem?_append_left hk]
    · simp [index?, hj0]
  · unfold len
    rw [index?_natCast]
    exact hslot
  · intro g hg hurl
    have hmin : minInt ≤ len p.products :=
      le_trans (by decide) (len_nonneg p.products)
    have hgid : IDFromURL g = Except.ok ((p.products.length : Nat) : Int) :=
      IDFromURL_productURL g (len p.products) hurl hmin hlen
    rw [ServeHTTP_GET unmarshal _ g hg]
    obtain ⟨q, hq, hget⟩ := get_eq ⟨p.products ++ [prod]⟩ g p.products.length hgid (by simp)
    rw [hslot] at hq
    cases hq
    exact hget

/-- Witness for C3: `POST` of the record `Cable`, price 5, on the seed, then
`GET /products/3`. -/
theorem post_appends_witness :
    newProductHandler.ServeHTTP sampleUnmarshal
        (withJSON "POST" "/products" "\x7b\"name\":\"Cable\",\"price\":5\x7d")
      = some (respondWithJSON StatusCreated (Data.product ⟨"Cable", ⟨0x4014000000000000⟩⟩),
          { products := newProductHandler.products ++ [⟨"Cable", ⟨0x4014000000000000⟩⟩] }) ∧
      productHandler.ServeHTTP sampleUnmarshal
          { products := newProductHandler.products ++ [⟨"Cable", ⟨0x4014000000000000⟩⟩] }
          (bare "GET" "/products/3")
        = some (respondWithJSON StatusOK (Data.product ⟨"Cable", ⟨0x4014000000000000⟩⟩),
          { products := newProductHandler.products ++ [⟨"Cable", ⟨0x4014000000000000⟩⟩] }) := by
  obtain ⟨hpost, -, -, -, hget⟩ :=
    post_appends sampleUnmarshal newProductHandler
      (withJSON "POST" "/products" "\x7b\"name\":\"Cable\",\"price\":5\x7d")
      "\x7b\"name\":\"Cable\",\"price\":5\x7d" ⟨"Cable", ⟨0x4014000000000000⟩⟩
      rfl rfl rfl rfl (by decide)
  exact ⟨hpost, hget (bare "GET" "/products/3") rfl rfl⟩

/-- C4, as the code has it. For every integer `n` that fits in an `int`
(`minInt ≤ n ≤ maxInt`), a `GET` of `/products/<n>`, `n` written in base 10,
answers 200 with exactly the record in slot `n` when `0 ≤ n < length`, and 404
with the error `not found` when `n < 0` or `n ≥ length`; the collection is
unchanged in both cases. -/
theorem get_by_id (unmarshal : String → Except String Product)
    (p : productHandler) (r : Request) (n : Int)
    (hm : r.Method = "GET") (hurl : r.URL = productURL n)
    (hlo : minInt ≤ n) (hhi : n ≤ maxInt) :
    (0 ≤ n → n < len p.products →
      ∃ q, index? p.products n = some q ∧
        p.ServeHTTP unmarshal r = some (respondWithJSON StatusOK (Data.product q), p)) ∧
    (n < 0 ∨ len p.products ≤ n →
      p.ServeHTTP unmarshal r = some (respondWithError StatusNotFound "not found", p)) := by
  have hid : IDFromURL r = Except.ok n := IDFromURL_productURL r n hurl hlo hhi
  rw [ServeHTTP_GET unmarshal p r hm]
  constructor
  · intro h0 hlt
    obtain ⟨i, rfl⟩ := Int.eq_ofNat_of_zero_le h0
    obtain ⟨q, hq, hget⟩ := get_eq p r i hid (by unfold len at hlt; omega)
    exact ⟨q, by rw [index?_natCast]; exact hq, hget⟩
  · intro hout
    exact get_out_of_range p r n hid hout

/-- Witness for C4: on the seed `GET /products/1` returns `Webcam`, price 50,
and `GET /products/99` answers 404. -/
theorem get_by_id_witness :
    newProductHandler.ServeHTTP sampleUnmarshal (bare "GET" "/products/1")
        = some (respondWithJSON StatusOK (Data.product ⟨"Webcam", ⟨0x4049000000000000⟩⟩),
            newProductHandler) ∧
      newProductHandler.ServeHTTP sampleUnmarshal (bare "GET" "/products/99")
        = some (respondWithError StatusNotFound "not found", newProductHandler) := by
  obtain ⟨q, hq, hget⟩ :=
    (get_by_id sampleUnmarshal newProductHandler (bare "GET" "/products/1") 1 rfl rfl
      (by decide) (by decide)).1 (by decide) (by decide)
  have hq1 : q = ⟨"Webcam", ⟨0x4049000000000000⟩⟩ := (Option.some.inj hq).symm
  subst hq1
  exact ⟨hget,
    (get_by_id sampleUnmarshal newProductHandler (bare "GET" "/products/99") 99 rfl rfl
      (by decide) (by decide)).2 (Or.inr (by decide))⟩

/-- C4 fails as stated: `99999999999999999999` is an integer written in base 10
and is not below the length of the seed, yet `GET /products/99999999999999999999`
answers 200 with the whole collection and not 404, because `Atoi` refuses a
value that does not fit in an `int` and a failed ID extraction lists the
collection. -/
theorem get_id_beyond_int_lists_collection :
    (bare "GET" "/products/99999999999999999999").URL = productURL 99999999999999999999 ∧
      len newProductHandler.products ≤ 99999999999999999999 ∧
      newProductHandler.ServeHTTP sampleUnmarshal (bare "GET" "/products/99999999999999999999")
        = some (respondWithJSON StatusOK (Data.products newProductHandler.products),
            newProductHandler) := by
  refine ⟨rfl, by decide, by decide⟩

theorem specIDFromURL_eq_some_iff (url : String) (id : Int) :
    specIDFromURL url = some id ↔
      ∃ a b t, splitChars '/' url.data = [a, b, t] ∧ isIntegerText t = true ∧
        integerValue t = id := by
  unfold specIDFromURL
  constructor
  · intro h
    split at h
    · rename_i a b t hp
      by_cases ht : isIntegerText t = true
      · rw [if_pos ht] at h
        exact ⟨a, b, t, hp, ht, Option.some.inj h⟩
      · rw [if_neg ht] at h
        cases h
    · cases h
  · rintro ⟨a, b, t, hp, ht, hv⟩
    rw [hp]
    simp [ht, hv]

/-- No ID is extracted when the segments are not three or the third is not a
base-10 integer. -/
theorem IDFromURL_fails (r : Request)
    (hno : (splitChars '/' r.URL.data).length ≠ 3 ∨
      ∃ a b t, splitChars '/' r.URL.data = [a, b, t] ∧ isIntegerText t = false) :
    IDFromURL r = Except.error "not found" := by
  cases hid : IDFromURL r with
  | error e => rw [IDFromURL_error r e hid]
  | ok id =>
    obtain ⟨a, b, t, hp, ha⟩ := (IDFromURL_eq_ok_iff r id).1 hid
    rcases hno with hlen | ⟨a', b', t', hp', ht⟩
    · rw [hp] at hlen
      exact absurd rfl hlen
    · rw [hp] at hp'
      cases hp'
      rw [((Atoi_eq_some_iff t id).1 ha).1] at ht
      cases ht

/-- C5. A `GET` whose path yields no ID (a segment count other than three, a
third segment that is not an integer, or any other failure of the extraction)
answers 200 with the whole collection in its stored order and leaves it
unchanged; on the seeded handler the body is the three records `Shoes` 25,
`Webcam` 50, `Mic` 20 in that order. -/
theorem get_without_id_lists_collection (unmarshal : String → Except String Product)
    (p : productHandler) (r : Request)
    (hno : (splitChars '/' r.URL.data).length ≠ 3 ∨
      (∃ a b t, splitChars '/' r.URL.data = [a, b, t] ∧ isIntegerText t = false) ∨
      (∃ e, IDFromURL r = Except.error e)) :
    p.get r = some (respondWithJSON StatusOK (Data.products p.products), p) ∧
      (r.Method = "GET" →
        p.ServeHTTP unmarshal r
          = some (respondWithJSON StatusOK (Data.products p.products), p)) ∧
      newProductHandler.get r
        = some (respondWithJSON StatusOK (Data.products
            [⟨"Shoes", ⟨0x4039000000000000⟩⟩, ⟨"Webcam", ⟨0x4049000000000000⟩⟩,
              ⟨"Mic", ⟨0x4034000000000000⟩⟩]), newProductHandler) := by
  have hid : ∃ e, IDFromURL r = Except.error e := by
    rcases hno with h | h | h
    · exact ⟨_, IDFromURL_fails r (Or.inl h)⟩
    · exact ⟨_, IDFromURL_fails r (Or.inr h)⟩
    · exact h
  obtain ⟨e, he⟩ := hid
  have hget : ∀ q : productHandler,
      q.get r = some (respondWithJSON StatusOK (Data.products q.products), q) := by
    intro q
    unfold productHandler.get
    rw [he]
  exact ⟨hget p, fun hm => by rw [ServeHTTP_GET unmarshal p r hm]; exact hget p,
    hget newProductHandler⟩

/-- Witness for C5: the request of `TestGetProduct`, `GET /product`, on the seed. -/
theorem get_without_id_lists_collection_witness :
    newProductHandler.get (bare "GET" "/product")
      = some (respondWithJSON StatusOK (Data.products
          [⟨"Shoes", ⟨0x4039000000000000⟩⟩, ⟨"Webcam", ⟨0x4049000000000000⟩⟩,
            ⟨"Mic", ⟨0x4034000000000000⟩⟩]), newProductHandler) :=
  (get_without_id_lists_collection sampleUnmarshal newProductHandler (bare "GET" "/product")
    (Or.inl (by decide))).2.2

/-- C6, as the code has it. The function `IDFromURL` returns an ID exactly
when the URL splits on `/` in exactly three segments, whatever the first two
are, and the third is a base-10 integer (an optional sign, then one or more
digits) whose value fits in an `int`, and the ID is that integer; with any
other segment count and with a third segment that is not an integer it fails,
and every failure carries the same message `not found`. -/
theorem IDFromURL_iff_spec_in_range (r : Request) :
    (∀ id : Int, IDFromURL r = Except.ok id ↔
      (specIDFromURL r.URL = some id ∧ minInt ≤ id ∧ id ≤ maxInt)) ∧
    ((splitChars '/' r.URL.data).length ≠ 3 → IDFromURL r = Except.error "not found") ∧
    (∀ a b t, splitChars '/' r.URL.data = [a, b, t] → isIntegerText t = false →
      IDFromURL r = Except.error "not found") ∧
    (∀ e, IDFromURL r = Except.error e → e = "not found") := by
  refine ⟨fun id => ?_, fun h => IDFromURL_fails r (Or.inl h),
    fun a b t hp ht => IDFromURL_fails r (Or.inr ⟨a, b, t, hp, ht⟩), IDFromURL_error r⟩
  rw [IDFromURL_eq_ok_iff, specIDFromURL_eq_some_iff]
  constructor
  · rintro ⟨a, b, t, hp, ha⟩
    obtain ⟨ht, hv, hlo, hhi⟩ := (Atoi_eq_some_iff t id).1 ha
    exact ⟨⟨a, b, t, hp, ht, hv⟩, hlo, hhi⟩
  · rintro ⟨⟨a, b, t, hp, ht, hv⟩, hlo, hhi⟩
    exact ⟨a, b, t, hp, (Atoi_eq_some_iff t id).2 ⟨ht, hv, hlo, hhi⟩⟩

/-- C6 fails as stated: `/products/9223372036854775808` splits in the three
segments `""`, `products`, `9223372036854775808`, and the third is a base-10
integer, so the spec reads the ID `9223372036854775808` from it; `IDFromURL`
fails on it with `not found`, because the value does not fit in an `int`.
Besides, the first two segments are not looked at: `/products?x=a/5` splits in
`""`, `products?x=a`, `5` and yields the ID 5. -/
theorem IDFromURL_refuses_integer_beyond_int :
    specIDFromURL "/products/9223372036854775808" = some 9223372036854775808 ∧
      IDFromURL (bare "GET" "/products/9223372036854775808")
        = Except.error "not found" ∧
      splitChars '/' "/products?x=a/5".data = ["".data, "products?x=a".data, "5".data] ∧
      IDFromURL (bare "GET" "/products?x=a/5") = Except.ok 5 := by
  exact ⟨by decide, rfl, by decide, rfl⟩

/-- Every request is answered, never with 405 by one of the four handlers, and
an answer of 400 or above leaves the collection as it was. -/
theorem ServeHTTP_total (unmarshal : String → Except String Product)
    (p : productHandler) (r : Request) :
    ∃ resp p', p.ServeHTTP unmarshal r = some (resp, p') ∧
      (r.Method ∈ ["GET", "POST", "PUT", "PATCH", "DELETE"] →
        resp.code ≠ StatusMethodNotAllowed) ∧
      (400 ≤ resp.code → p' = p) := by
  by_cases hg : r.Method = "GET"
  · obtain ⟨resp, h, hc⟩ := get_total p r
    exact ⟨resp, p, by rw [ServeHTTP_GET unmarshal p r hg]; exact h, fun _ => hc, fun _ => rfl⟩
  by_cases hpo : r.Method = "POST"
  · obtain ⟨resp, p', h, hc, hu⟩ := post_total unmarshal p r
    exact ⟨resp, p', by rw [ServeHTTP_POST unmarshal p r hpo]; exact h, fun _ => hc, hu⟩
  by_cases hpu : r.Method = "PUT" ∨ r.Method = "PATCH"
  · obtain ⟨resp, p', h, hc, hu⟩ := put_total unmarshal p r
    exact ⟨resp, p', by rw [ServeHTTP_PUT unmarshal p r hpu]; exact h, fun _ => hc, hu⟩
  by_cases hd : r.Method = "DELETE"
  · obtain ⟨resp, p', h, hc, hu⟩ := delete_total p r
    exact ⟨resp, p', by rw [ServeHTTP_DELETE unmarshal p r hd]; exact h, fun _ => hc, hu⟩
  have hother : r.Method ∉ ["GET", "POST", "PUT", "PATCH", "DELETE"] := by
    simp only [List.mem_cons, List.mem_singleton, List.not_mem_nil, or_false, not_or]
    exact ⟨hg, hpo, fun h => hpu (Or.inl h), fun h => hpu (Or.inr h), hd⟩
  exact ⟨_, p, ServeHTTP_other unmarshal p r hother, fun h => absurd h hother, fun _ => rfl⟩

/-- C7. Every request, whatever its method, is answered, and when the status of
the answer is an error status (400 or above) the collection after the request
equals the collection before it. -/
theorem error_leaves_collection (unmarshal : String → Except String Product)
    (p : productHandler) (r : Request) :
    ∃ resp p', p.ServeHTTP unmarshal r = some (resp, p') ∧
      (400 ≤ resp.code → p' = p) := by
  obtain ⟨resp, p', h, -, hu⟩ := ServeHTTP_total unmarshal p r
  exact ⟨resp, p', h, hu⟩

/-- C8, as the code has it. A `POST` whose body was read without error and whose
content type is not exactly `application/json` answers 415, whatever the body
contains, and leaves the collection unchanged; a `POST` whose body could not be
read answers 500 whatever its content type, and leaves the collection unchanged
too. -/
theorem post_wrong_content_type (unmarshal : String → Except String Product)
    (p : productHandler) (r : Request) (hm : r.Method = "POST") :
    (∀ body, r.Body = Except.ok body → r.contentType ≠ "application/json" →
      p.ServeHTTP unmarshal r
        = some (respondWithError StatusUnsupportedMediaType
            "content type 'application/json' required", p)) ∧
    (∀ err, r.Body = Except.error err →
      p.ServeHTTP unmarshal r = some (respondWithError StatusInternalServerError err, p)) := by
  rw [ServeHTTP_POST unmarshal p r hm]
  unfold productHandler.post
  constructor
  · intro body hb hct
    rw [hb]
    simp only [ne_eq, hct, not_false_eq_true, if_true]
  · intro err hb
    rw [hb]

/-- Witness for C8: a `POST` of a valid product body with the content type
`application/json; charset=utf-8` on the seed answers 415. -/
theorem post_wrong_content_type_witness :
    newProductHandler.ServeHTTP sampleUnmarshal
        { Method := "POST", URL := "/products",
          contentType := "application/json; charset=utf-8",
          Body := Except.ok "\x7b\"name\":\"Cable\",\"price\":5\x7d" }
      = some (respondWithError StatusUnsupportedMediaType
          "content type 'application/json' required", newProductHandler) :=
  (post_wrong_content_type sampleUnmarshal newProductHandler
    { Method := "POST", URL := "/products",
      contentType := "application/json; charset=utf-8",
      Body := Except.ok "\x7b\"name\":\"Cable\",\"price\":5\x7d" } rfl).1
    "\x7b\"name\":\"Cable\",\"price\":5\x7d" rfl (by decide)

/-- C8 fails as stated: a `POST` with the content type `text/plain` whose body
cannot be read (the read of `r.Body` ends in `unexpected EOF`) answers 500 and
not 415, because `post` checks the outcome of `ioutil.ReadAll` before it looks
at the content type. -/
theorem post_unreadable_body_answers_500 :
    ("text/plain" ≠ "application/json") ∧
      newProductHandler.ServeHTTP sampleUnmarshal
          { Method := "POST", URL := "/products", contentType := "text/plain",
            Body := Except.error "unexpected EOF" }
        = some (respondWithError StatusInternalServerError "unexpected EOF",
            newProductHandler) := by
  exact ⟨by decide, by decide⟩

/-- C9. A `PUT`, `PATCH` or `DELETE` whose path yields no ID answers 404 with
the message of the ID extraction, `not found`, whatever its content type and
body are; a `DELETE` whose ID is negative or not below the length answers 404
`not found`; the collection is unchanged in all these cases. -/
theorem missing_or_bad_id_answers_404 (unmarshal : String → Except String Product)
    (p : productHandler) (r : Request) :
    (r.Method = "PUT" ∨ r.Method = "PATCH" ∨ r.Method = "DELETE" →
      ∀ e, IDFromURL r = Except.error e →
        e = "not found" ∧
        p.ServeHTTP unmarshal r = some (respondWithError StatusNotFound e, p)) ∧
    (r.Method = "DELETE" →
      ∀ id : Int, IDFromURL r = Except.ok id → id < 0 ∨ len p.products ≤ id →
        p.ServeHTTP unmarshal r
          = some (respondWithError StatusNotFound "not found", p)) := by
  constructor
  · intro hm e he
    refine ⟨IDFromURL_error r e he, ?_⟩
    rcases hm with hm | hm | hm
    · rw [ServeHTTP_PUT unmarshal p r (Or.inl hm)]
      unfold productHandler.put
      rw [he]
    · rw [ServeHTTP_PUT unmarshal p r (Or.inr hm)]
      unfold productHandler.put
      rw [he]
    · rw [ServeHTTP_DELETE unmarshal p r hm]
      unfold productHandler.delete
      rw [he]
  · intro hm id hid hout
    have hguard : id ≥ len p.products ∨ id < 0 := by omega
    rw [ServeHTTP_DELETE unmarshal p r hm]
    unfold productHandler.delete
    rw [hid]
    simp only [hguard, if_true]

/-- Witness for C9: on the seed, `PUT /products` with an unreadable body and no
content type, and `DELETE /products/3`, both answer 404 `not found`. -/
theorem missing_or_bad_id_answers_404_witness :
    newProductHandler.ServeHTTP sampleUnmarshal
        { Method := "PUT", URL := "/products", contentType := "",
          Body := Except.error "unexpected EOF" }
      = some (respondWithError StatusNotFound "not found", newProductHandler) ∧
    newProductHandler.ServeHTTP sampleUnmarshal (bare "DELETE" "/products/3")
      = some (respondWithError StatusNotFound "not found", newProductHandler) :=
  ⟨((missing_or_bad_id_answers_404 sampleUnmarshal newProductHandler
      { Method := "PUT", URL := "/products", contentType := "",
        Body := Except.error "unexpected EOF" }).1 (Or.inl rfl) "not found" rfl).2,
    (missing_or_bad_id_answers_404 sampleUnmarshal newProductHandler
      (bare "DELETE" "/products/3")).2 rfl 3 rfl (Or.inr (by decide))⟩

/-- C10. The answer of `ServeHTTP` is 405 if and only if the method is not one
of `GET`, `POST`, `PUT`, `PATCH`, `DELETE`; the 405 answer carries the error
`invalid method` and leaves the collection unchanged; and `PUT` and `PATCH`
give the same answer and the same resulting collection for the same request. -/
theorem method_not_allowed_iff (unmarshal : String → Except String Product)
    (p : productHandler) (r : Request) :
    (∃ resp p', p.ServeHTTP unmarshal r = some (resp, p') ∧
      (resp.code = StatusMethodNotAllowed ↔
        r.Method ∉ ["GET", "POST", "PUT", "PATCH", "DELETE"]) ∧
      (resp.code = StatusMethodNotAllowed →
        resp = respondWithError StatusMethodNotAllowed "invalid method" ∧ p' = p)) ∧
    p.ServeHTTP unmarshal { r with Method := "PUT" }
      = p.ServeHTTP unmarshal { r with Method := "PATCH" } := by
  constructor
  · by_cases hmem : r.Method ∈ ["GET", "POST", "PUT", "PATCH", "DELETE"]
    · obtain ⟨resp, p', h, hc, -⟩ := ServeHTTP_total unmarshal p r
      exact ⟨resp, p', h, ⟨fun h405 => absurd h405 (hc hmem), fun hn => absurd hmem hn⟩,
        fun h405 => absurd h405 (hc hmem)⟩
    · exact ⟨_, p, ServeHTTP_other unmarshal p r hmem, ⟨fun _ => hmem, fun _ => rfl⟩,
        fun _ => ⟨rfl, rfl⟩⟩
  · rw [ServeHTTP_PUT unmarshal p _ (Or.inl rfl), ServeHTTP_PUT unmarshal p _ (Or.inr rfl)]
    rfl

/-! ## Lemmas on permutations and merging -/

/-- Swap-with-last removal keeps every record but one: writing `last` over
slot `i` and cutting the last slot leaves a permutation of the list without
its slot `i`. -/
theorem swapRemove_perm {α : Type} (s : List α) (i : Nat) (last : α)
    (hlast : s[s.length - 1]? = some last) (hi : i < s.length) :
    List.Perm ((s.set i last).take (s.length - 1)) (s.eraseIdx i) := by
  induction s generalizing i with
  | nil => simp at hi
  | cons a t ih =>
    cases t with
    | nil =>
      have hi0 : i = 0 := by simp at hi; omega
      subst hi0
      simp
    | cons b u =>
      have hlast' : (b :: u)[(b :: u).length - 1]? = some last := by
        simpa using hlast
      cases i with
      | zero =>
        simp only [List.set_cons_zero, List.length_cons, Nat.add_sub_cancel, List.take_succ_cons,
          List.eraseIdx_cons_zero]
        have hsplit : b :: u = (b :: u).take u.length ++ [last] := by
          have h1 : (b :: u).take u.length ++ (b :: u).drop u.length = b :: u :=
            List.take_append_drop _ _
          have h2 : (b :: u).drop u.length = [last] := by
            have hlt : u.length < (b :: u).length := by simp
            rw [List.drop_eq_getElem_cons hlt]
            have h3 : (b :: u)[u.length]? = some last := by simpa using hlast'
            rw [List.getElem?_eq_getElem hlt] at h3
            rw [Option.some.inj h3]
            simp
          rw [← h2, h1]
        conv => rhs; rw [hsplit]
        exact (List.perm_append_singleton _ _).symm
      | succ j =>
        have hj : j < (b :: u).length := by simpa using hi
        have := ih j hlast' hj
        simp only [List.set_cons_succ, List.length_cons, Nat.add_sub_cancel, List.take_succ_cons,
          List.eraseIdx_cons_succ] at this ⊢
        exact List.Perm.cons a this

/-- A list is its slot `i` followed by the list without that slot, up to order. -/
theorem perm_cons_eraseIdx {α : Type} (s : List α) (i : Nat) (q : α) (h : s[i]? = some q) :
    List.Perm s (q :: s.eraseIdx i) := by
  induction s generalizing i with
  | nil => simp at h
  | cons a t ih =>
    cases i with
    | zero =>
      simp at h
      subst h
      simp
    | succ j =>
      have hj : t[j]? = some q := by simpa using h
      simp only [List.eraseIdx_cons_succ]
      exact (List.Perm.cons a (ih j hj)).trans (List.Perm.swap q a _)

/-- Merging the same body a second time changes nothing. -/
theorem mergeFields_idem (old b : Product) :
    mergeFields (mergeFields old b) b = mergeFields old b := by
  unfold mergeFields
  by_cases hn : b.Name = "" <;> by_cases hp : b.Price.neZero = true <;> simp [hn, hp]

/-! ## The claims on the order of checks, bounds, deletion and idempotence -/

/-- C12, as the code has it. A `PUT` or `PATCH` is checked in this order and
the first failing check decides the answer: ID extraction from the path (404
with the message of the extraction), the read of the body (500), the content
type, which must be exactly `application/json` (415), the decoding of the body
as a product (400), the ID within `[0, length)` (404 `not found`); the
collection is unchanged in all these cases.  So, once the body is read, a wrong
content type answers 415 and an undecodable body 400 whether the ID is in
range or not. -/
theorem put_check_order (unmarshal : String → Except String Product)
    (p : productHandler) (r : Request) (hm : r.Method = "PUT" ∨ r.Method = "PATCH") :
    (∀ e, IDFromURL r = Except.error e →
      p.ServeHTTP unmarshal r = some (respondWithError StatusNotFound e, p)) ∧
    (∀ id, IDFromURL r = Except.ok id →
      (∀ err, r.Body = Except.error err →
        p.ServeHTTP unmarshal r
          = some (respondWithError StatusInternalServerError err, p)) ∧
      (∀ body, r.Body = Except.ok body →
        (r.contentType ≠ "application/json" →
          p.ServeHTTP unmarshal r
            = some (respondWithError StatusUnsupportedMediaType
                "content type 'application/json' required", p)) ∧
        (r.contentType = "application/json" →
          (∀ err, unmarshal body = Except.error err →
            p.ServeHTTP unmarshal r = some (respondWithError StatusBadRequest err, p)) ∧
          (∀ b, unmarshal body = Except.ok b → (id < 0 ∨ len p.products ≤ id) →
            p.ServeHTTP unmarshal r
              = some (respondWithError StatusNotFound "not found", p))))) := by
  rw [ServeHTTP_PUT unmarshal p r hm]
  unfold productHandler.put
  refine ⟨fun e he => by rw [he], fun id hid => ⟨fun err hb => by rw [hid, hb],
    fun body hb => ⟨fun hct => ?_, fun hct => ⟨fun err hu => ?_, fun b hu hout => ?_⟩⟩⟩⟩
  · rw [hid, hb]
    simp only [ne_eq, hct, not_false_eq_true, if_true]
  · rw [hid, hb]
    simp only [hct, hu, ne_eq, not_true_eq_false, if_false]
  · have hguard : id ≥ len p.products ∨ id < 0 := by omega
    rw [hid, hb]
    simp only [hct, hu, ne_eq, not_true_eq_false, if_false, hguard, if_true]

/-- Witness for C12: on the seed, `PUT /products/99` with the content type
`text/plain` answers 415, and with `application/json` and a body that does not
decode answers 400. -/
theorem put_check_order_witness :
    newProductHandler.ServeHTTP sampleUnmarshal
        { Method := "PUT", URL := "/products/99", contentType := "text/plain",
          Body := Except.ok "\x7b\"name\":\"Cable\",\"price\":5\x7d" }
      = some (respondWithError StatusUnsupportedMediaType
          "content type 'application/json' required", newProductHandler) ∧
    newProductHandler.ServeHTTP sampleUnmarshal (withJSON "PUT" "/products/99" "nonsense")
      = some (respondWithError StatusBadRequest "invalid character", newProductHandler) :=
  ⟨(((put_check_order sampleUnmarshal newProductHandler
      { Method := "PUT", URL := "/products/99", contentType := "text/plain",
        Body := Except.ok "\x7b\"name\":\"Cable\",\"price\":5\x7d" } (Or.inl rfl)).2
      99 rfl).2 "\x7b\"name\":\"Cable\",\"price\":5\x7d" rfl).1 (by decide),
    ((((put_check_order sampleUnmarshal newProductHandler
      (withJSON "PUT" "/products/99" "nonsense") (Or.inl rfl)).2
      99 rfl).2 "nonsense" rfl).2 rfl).1 "invalid character" rfl⟩

/-- C12 fails as stated: on the seed, `PUT /products/99` (an ID out of range)
with the content type `text/plain` and a body that cannot be read (the read of
`r.Body` ends in `unexpected EOF`) answers 500 and not 415, because `put`
checks the outcome of `ioutil.ReadAll` between the ID extraction and the
content type. -/
theorem put_unreadable_body_answers_500 :
    IDFromURL
        { Method := "PUT", URL := "/products/99", contentType := "text/plain",
          Body := Except.error "unexpected EOF" } = Except.ok 99 ∧
      len newProductHandler.products ≤ 99 ∧
      "text/plain" ≠ "application/json" ∧
      newProductHandler.ServeHTTP sampleUnmarshal
          { Method := "PUT", URL := "/products/99", contentType := "text/plain",
            Body := Except.error "unexpected EOF" }
        = some (respondWithError StatusInternalServerError "unexpected EOF",
            newProductHandler) := by
  exact ⟨rfl, by decide, by decide, by decide⟩

/-- C13. No request makes the handler read or write the collection outside
`[0, length)`: `ServeHTTP` always answers, and never ends in the panic of an
index or slice bound out of range, whatever the collection (the empty one
included), the method, the path, the content type and the body are.  With a
path that yields an ID, a `GET` or `DELETE` on an empty collection or with a
negative ID answers 404 `not found`, and a `PUT` or `PATCH` answers an error and
leaves the collection. -/
theorem no_index_out_of_range (unmarshal : String → Except String Product)
    (p : productHandler) (r : Request) :
    (∃ resp p', p.ServeHTTP unmarshal r = some (resp, p')) ∧
    (∀ id : Int, IDFromURL r = Except.ok id → p.products = [] ∨ id < 0 →
      (r.Method = "GET" ∨ r.Method = "DELETE" →
        p.ServeHTTP unmarshal r
          = some (respondWithError StatusNotFound "not found", p)) ∧
      (r.Method = "PUT" ∨ r.Method = "PATCH" →
        ∃ resp, p.ServeHTTP unmarshal r = some (resp, p) ∧ 400 ≤ resp.code)) := by
  constructor
  · obtain ⟨resp, p', h, -⟩ := ServeHTTP_total unmarshal p r
    exact ⟨resp, p', h⟩
  · intro id hid hbad
    have hout : id < 0 ∨ len p.products ≤ id := by
      rcases hbad with h | h
      · by_cases hneg : id < 0
        · exact Or.inl hneg
        · right; rw [h]; unfold len; simp; omega
      · exact Or.inl h
    have hguard : id ≥ len p.products ∨ id < 0 := by omega
    constructor
    · rintro (hm | hm)
      · rw [ServeHTTP_GET unmarshal p r hm]
        exact get_out_of_range p r id hid hout
      · rw [ServeHTTP_DELETE unmarshal p r hm]
        unfold productHandler.delete
        rw [hid]
        simp only [hguard, if_true]
    · intro hm
      rw [ServeHTTP_PUT unmarshal p r hm]
      unfold productHandler.put
      rw [hid]
      cases hb : r.Body with
      | error err => exact ⟨_, rfl, by simp [respondWithError, respondWithJSON, StatusInternalServerError]⟩
      | ok body =>
        by_cases hct : r.contentType = "application/json"
        · cases hu : unmarshal body with
          | error err =>
            refine ⟨respondWithError StatusBadRequest err, ?_, by simp [respondWithError, respondWithJSON, StatusBadRequest]⟩
            simp only [hct, hu, ne_eq, not_true_eq_false, if_false]
          | ok b =>
            refine ⟨respondWithError StatusNotFound "not found", ?_, by simp [respondWithError, respondWithJSON, StatusNotFound]⟩
            simp only [hct, hu, ne_eq, not_true_eq_false, if_false, hguard, if_true]
        · refine ⟨respondWithError StatusUnsupportedMediaType
            "content type 'application/json' required", ?_, by simp [respondWithError, respondWithJSON, StatusUnsupportedMediaType]⟩
          simp only [ne_eq, hct, not_false_eq_true, if_true]

/-- Witness for C13: `DELETE /products/0` and a `GET` of the product with the
ID `-1` on an empty collection answer 404. -/
theorem no_index_out_of_range_witness :
    productHandler.ServeHTTP sampleUnmarshal { products := [] } (bare "DELETE" "/products/0")
      = some (respondWithError StatusNotFound "not found", { products := [] }) ∧
    productHandler.ServeHTTP sampleUnmarshal { products := [] } (bare "GET" "/products/-1")
      = some (respondWithError StatusNotFound "not found", { products := [] }) :=
  ⟨((no_index_out_of_range sampleUnmarshal { products := [] }
      (bare "DELETE" "/products/0")).2 0 rfl (Or.inl rfl)).1 (Or.inr rfl),
    ((no_index_out_of_range sampleUnmarshal { products := [] }
      (bare "GET" "/products/-1")).2 (-1) rfl (Or.inr (by decide))).1 (Or.inl rfl)⟩

/-- C14. A `DELETE` of a valid `id` removes exactly one record and loses or
duplicates no other: the collection it leaves is a permutation of the original
one without its slot `id`, so the original is, up to order, the record formerly
in slot `id` and the records that remain. -/
theorem delete_removes_exactly_one (unmarshal : String → Except String Product)
    (p : productHandler) (r : Request) (id : Int)
    (hm : r.Method = "DELETE") (hid : IDFromURL r = Except.ok id)
    (h0 : 0 ≤ id) (hlt : id < len p.products) :
    ∃ q p', index? p.products id = some q ∧
      p.ServeHTTP unmarshal r
        = some (respondWithJSON StatusNoContent (Data.text ""), p') ∧
      List.Perm p'.products (p.products.eraseIdx id.toNat) ∧
      List.Perm p.products (q :: p'.products) ∧
      p'.products.length + 1 = p.products.length := by
  obtain ⟨i, rfl⟩ := Int.eq_ofNat_of_zero_le h0
  have hi : i < p.products.length := by unfold len at hlt; omega
  obtain ⟨last, hlast, hdel⟩ := delete_eq p r i hid hi
  have hperm := swapRemove_perm p.products i last hlast hi
  have hq : p.products[i]? = some p.products[i] := List.getElem?_eq_getElem hi
  refine ⟨p.products[i], _, by rw [index?_natCast]; exact hq,
    by rw [ServeHTTP_DELETE unmarshal p r hm]; exact hdel, ?_, ?_, ?_⟩
  · simpa using hperm
  · exact (perm_cons_eraseIdx p.products i _ hq).trans (List.Perm.cons _ hperm.symm)
  · simp only [List.length_take, List.length_set]; omega

/-- Witness for C14: `DELETE /products/0` on the seed. -/
theorem delete_removes_exactly_one_witness :
    ∃ q p', index? newProductHandler.products 0 = some q ∧
      newProductHandler.ServeHTTP sampleUnmarshal (bare "DELETE" "/products/0")
        = some (respondWithJSON StatusNoContent (Data.text ""), p') ∧
      List.Perm p'.products (newProductHandler.products.eraseIdx (0 : Int).toNat) ∧
      List.Perm newProductHandler.products (q :: p'.products) ∧
      p'.products.length + 1 = newProductHandler.products.length :=
  delete_removes_exactly_one sampleUnmarshal newProductHandler
    (bare "DELETE" "/products/0") 0 rfl rfl (by decide) (by decide)

/-- C15. A successful `POST` of `prod` followed by a `DELETE` of the ID the
`POST` assigned, the former length, leaves the collection exactly as it was
before the two requests, the same records in the same order. -/
theorem post_then_delete_restores (unmarshal : String → Except String Product)
    (p : productHandler) (r : Request) (body : String) (prod : Product)
    (hm : r.Method = "POST") (hct : r.contentType = "application/json")
    (hbody : r.Body = Except.ok body) (hum : unmarshal body = Except.ok prod) :
    ∃ p1, p.ServeHTTP unmarshal r
        = some (respondWithJSON StatusCreated (Data.product prod), p1) ∧
      len p1.products = len p.products + 1 ∧
      (∀ d : Request, d.Method = "DELETE" → IDFromURL d = Except.ok (len p.products) →
        p1.ServeHTTP unmarshal d
          = some (respondWithJSON StatusNoContent (Data.text ""), p)) ∧
      (len p.products ≤ maxInt →
        ∀ d : Request, d.Method = "DELETE" → d.URL = productURL (len p.products) →
          p1.ServeHTTP unmarshal d
            = some (respondWithJSON StatusNoContent (Data.text ""), p)) := by
  have hpost : p.ServeHTTP unmarshal r
      = some (respondWithJSON StatusCreated (Data.product prod),
          { products := p.products ++ [prod] }) := by
    rw [ServeHTTP_POST unmarshal p r hm]
    unfold productHandler.post
    simp [hbody, hct, hum]
  have hdel : ∀ d : Request, d.Method = "DELETE" → IDFromURL d = Except.ok (len p.products) →
      productHandler.ServeHTTP unmarshal { products := p.products ++ [prod] } d
        = some (respondWithJSON StatusNoContent (Data.text ""), p) := by
    intro d hd hid
    rw [ServeHTTP_DELETE unmarshal _ d hd]
    obtain ⟨last, hlast, hq⟩ :=
      delete_eq ⟨p.products ++ [prod]⟩ d p.products.length hid (by simp)
    rw [hq]
    have hl : last = prod := by
      simp at hlast
      exact hlast.symm
    subst hl
    have : ((p.products ++ [last]).set p.products.length last).take
        ((p.products ++ [last]).length - 1) = p.products := by
      simp
    simp only [this]
  refine ⟨_, hpost, by unfold len; simp, hdel, ?_⟩
  intro hlen d hd hurl
  exact hdel d hd (IDFromURL_productURL d (len p.products) hurl
    (le_trans (by decide) (len_nonneg p.products)) hlen)

/-- Witness for C15: `POST` of the record `Cable` on the seed, then
`DELETE /products/3`, gives the seed back. -/
theorem post_then_delete_restores_witness :
    ∃ p1, newProductHandler.ServeHTTP sampleUnmarshal
          (withJSON "POST" "/products" "\x7b\"name\":\"Cable\",\"price\":5\x7d")
        = some (respondWithJSON StatusCreated
            (Data.product ⟨"Cable", ⟨0x4014000000000000⟩⟩), p1) ∧
      p1.ServeHTTP sampleUnmarshal (bare "DELETE" "/products/3")
        = some (respondWithJSON StatusNoContent (Data.text ""), newProductHandler) := by
  obtain ⟨p1, hpost, -, hdel, -⟩ :=
    post_then_delete_restores sampleUnmarshal newProductHandler
      (withJSON "POST" "/products" "\x7b\"name\":\"Cable\",\"price\":5\x7d")
      "\x7b\"name\":\"Cable\",\"price\":5\x7d" ⟨"Cable", ⟨0x4014000000000000⟩⟩
      rfl rfl rfl rfl
  exact ⟨p1, hpost, hdel (bare "DELETE" "/products/3") rfl rfl⟩

/-- C16. A `PUT` or `PATCH` is idempotent: the request is answered, and the
same request applied again to the collection it left gives the same answer and
leaves the same collection. -/
theorem put_idempotent (unmarshal : String → Except String Product)
    (p : productHandler) (r : Request) (hm : r.Method = "PUT" ∨ r.Method = "PATCH") :
    ∃ resp p', p.ServeHTTP unmarshal r = some (resp, p') ∧
      p'.ServeHTTP unmarshal r = some (resp, p') := by
  rw [ServeHTTP_PUT unmarshal p r hm]
  cases hid : IDFromURL r with
  | error e =>
    have h : ∀ q : productHandler,
        q.put unmarshal r = some (respondWithError StatusNotFound e, q) := by
      intro q; unfold productHandler.put; rw [hid]
    exact ⟨_, _, h p, by rw [ServeHTTP_PUT unmarshal p r hm]; exact h p⟩
  | ok id =>
    cases hb : r.Body with
    | error err =>
      have h : ∀ q : productHandler,
          q.put unmarshal r = some (respondWithError StatusInternalServerError err, q) := by
        intro q; unfold productHandler.put; rw [hid, hb]
      exact ⟨_, _, h p, by rw [ServeHTTP_PUT unmarshal p r hm]; exact h p⟩
    | ok body =>
      by_cases hct : r.contentType = "application/json"
      · cases hu : unmarshal body with
        | error err =>
          have h : ∀ q : productHandler,
              q.put unmarshal r = some (respondWithError StatusBadRequest err, q) := by
            intro q; unfold productHandler.put; rw [hid, hb]
            simp only [hct, hu, ne_eq, not_true_eq_false, if_false]
          exact ⟨_, _, h p, by rw [ServeHTTP_PUT unmarshal p r hm]; exact h p⟩
        | ok b =>
          by_cases hout : id ≥ len p.products ∨ id < 0
          · have h : p.put unmarshal r
                = some (respondWithError StatusNotFound "not found", p) := by
              unfold productHandler.put; rw [hid, hb]
              simp only [hct, hu, ne_eq, not_true_eq_false, if_false, hout, if_true]
            exact ⟨_, _, h, by rw [ServeHTTP_PUT unmarshal p r hm]; exact h⟩
          · have h0 : 0 ≤ id := by omega
            obtain ⟨i, rfl⟩ := Int.eq_ofNat_of_zero_le h0
            have hlt : i < p.products.length := by unfold len at hout; omega
            obtain ⟨old, hold, hq⟩ := put_eq unmarshal p r i body b hid hb hct hu hlt
            refine ⟨_, _, hq, ?_⟩
            rw [ServeHTTP_PUT unmarshal _ r hm]
            obtain ⟨old', hold', hq'⟩ :=
              put_eq unmarshal ⟨p.products.set i (mergeFields old b)⟩ r i body b hid hb hct hu
                (by simpa using hlt)
            have ho : old' = mergeFields old b := by
              simp only [List.getElem?_set_self hlt] at hold'
              exact (Option.some.inj hold').symm
            rw [hq', ho, mergeFields_idem, List.set_set]
      · have h : ∀ q : productHandler,
            q.put unmarshal r = some (respondWithError StatusUnsupportedMediaType
              "content type 'application/json' required", q) := by
          intro q; unfold productHandler.put; rw [hid, hb]
          simp only [ne_eq, hct, not_false_eq_true, if_true]
        exact ⟨_, _, h p, by rw [ServeHTTP_PUT unmarshal p r hm]; exact h p⟩

/-- Witness for C16: `PUT /products/0` with an empty name and the price 30,
twice on the seed. -/
theorem put_idempotent_witness :
    ∃ resp p', newProductHandler.ServeHTTP sampleUnmarshal
          (withJSON "PUT" "/products/0" "\x7b\"name\":\"\",\"price\":30\x7d")
        = some (resp, p') ∧
      p'.ServeHTTP sampleUnmarshal
          (withJSON "PUT" "/products/0" "\x7b\"name\":\"\",\"price\":30\x7d")
        = some (resp, p') :=
  put_idempotent sampleUnmarshal newProductHandler
    (withJSON "PUT" "/products/0" "\x7b\"name\":\"\",\"price\":30\x7d") (Or.inl rfl)

/-! ## Lists with one slot replaced -/

theorem getElem?_set_cases {α : Type} (l : List α) (i j : Nat) (b x : α)
    (h : (l.set i b)[j]? = some x) :
    (j = i ∧ x = b) ∨ (j ≠ i ∧ l[j]? = some x) := by
  by_cases hij : i = j
  · subst hij
    rw [List.getElem?_set_self'] at h
    cases hl : l[i]? with
    | none => rw [hl] at h; cases h
    | some a =>
      rw [hl] at h
      exact Or.inl ⟨rfl, (Option.some.inj h).symm⟩
  · rw [List.getElem?_set_ne hij] at h
    exact Or.inr ⟨fun hji => hij hji.symm, h⟩

theorem filterMap_set_same {α β : Type} (f : α → Option β) (l : List α) (i : Nat) (a b : α)
    (ha : l[i]? = some a) (hf : f b = f a) :
    (l.set i b).filterMap f = l.filterMap f := by
  induction l generalizing i with
  | nil => simp at ha
  | cons x t ih =>
    cases i with
    | zero =>
      have hx : x = a := by simpa using ha
      subst hx
      simp [List.filterMap_cons, hf]
    | succ j =>
      have hj : t[j]? = some a := by simpa using ha
      simp [List.filterMap_cons, ih j hj]

theorem filterMap_set_new {α β : Type} (f : α → Option β) (l : List α) (i : Nat) (a b : α)
    (p : β) (ha : l[i]? = some a) (hfa : f a = none) (hfb : f b = some p) :
    List.Perm ((l.set i b).filterMap f) (l.filterMap f ++ [p]) := by
  induction l generalizing i with
  | nil => simp at ha
  | cons x t ih =>
    cases i with
    | zero =>
      have hx : x = a := by simpa using ha
      subst hx
      simp only [List.set_cons_zero, List.filterMap_cons, hfb, hfa]
      exact (List.perm_append_singleton p _).symm
    | succ j =>
      have hj : t[j]? = some a := by simpa using ha
      simp only [List.set_cons_succ, List.filterMap_cons]
      cases hx : f x with
      | none => exact ih j hj
      | some y => exact List.Perm.cons y (ih j hj)

theorem sum_map_set {α : Type} (f : α → Nat) (l : List α) (i : Nat) (a b : α)
    (ha : l[i]? = some a) :
    ((l.set i b).map f).sum + f a = (l.map f).sum + f b := by
  induction l generalizing i with
  | nil => simp at ha
  | cons x t ih =>
    cases i with
    | zero =>
      have hx : x = a := by simpa using ha
      subst hx
      simp only [List.set_cons_zero, List.map_cons, List.sum_cons]
      omega
    | succ j =>
      have hj : t[j]? = some a := by simpa using ha
      have := ih j hj
      simp only [List.set_cons_succ, List.map_cons, List.sum_cons]
      omega

/-! ## The steps of a goroutine -/

/-- The five kinds of step. -/
theorem stepThread_cases (unmarshal : String → Except String Product) (reqs : List Request)
    (i : Nat) (w w' : World) (h : stepThread unmarshal reqs i w = some w') :
    ∃ r, reqs[i]? = some r ∧
      ((w.pcs[i]? = some PostPC.entry ∧
          w' = { w with pcs := w.pcs.set i (postEntry unmarshal r) }) ∨
        (∃ product, w.pcs[i]? = some (PostPC.decoded product) ∧ w.mutex = none ∧
          w' = { w with mutex := some i, pcs := w.pcs.set i (PostPC.locked product) }) ∨
        (∃ product, w.pcs[i]? = some (PostPC.locked product) ∧
          w' = { w with pcs := w.pcs.set i (PostPC.appending product w.products) }) ∨
        (∃ product old, w.pcs[i]? = some (PostPC.appending product old) ∧
          w' = { w with products := old ++ [product],
                        pcs := w.pcs.set i (PostPC.stored product) }) ∨
        (∃ product, w.pcs[i]? = some (PostPC.stored product) ∧
          w' = { w with mutex := none, pcs := w.pcs.set i (PostPC.done product) })) := by
  unfold stepThread at h
  simp only [List.get?_eq_getElem?] at h
  cases hr : reqs[i]? with
  | none => rw [hr] at h; simp at h
  | some r =>
    refine ⟨r, rfl, ?_⟩
    rw [hr] at h
    cases hpc : w.pcs[i]? with
    | none => rw [hpc] at h; simp at h
    | some pc =>
      rw [hpc] at h
      cases pc with
      | entry => exact Or.inl ⟨rfl, (Option.some.inj h).symm⟩
      | failed resp => simp at h
      | decoded product =>
        by_cases hmu : w.mutex = none
        · simp only [hmu, if_true] at h
          exact Or.inr (Or.inl ⟨product, rfl, hmu, (Option.some.inj h).symm⟩)
        · simp [hmu] at h
      | locked product =>
        exact Or.inr (Or.inr (Or.inl ⟨product, rfl, (Option.some.inj h).symm⟩))
      | appending product old =>
        exact Or.inr (Or.inr (Or.inr (Or.inl ⟨product, old, rfl, (Option.some.inj h).symm⟩)))
      | stored product =>
        exact Or.inr (Or.inr (Or.inr (Or.inr ⟨product, rfl, (Option.some.inj h).symm⟩)))
      | done product => simp at h

/-! ## What every reachable state satisfies -/

/-- The invariant survives the replacement of the place of goroutine `i`, when
the mutex changes hands with the critical section and the collection only
grows by what the goroutine commits, from inside the critical section. -/
theorem Inv_set (unmarshal : String → Except String Product) (reqs : List Request)
    (w : World) (i : Nat) (a b : PostPC) (r : Request) (products' : Products)
    (mutex' : Option Nat)
    (hinv : Inv unmarshal reqs w) (ha : w.pcs[i]? = some a) (hr : reqs[i]? = some r)
    (horigin : b.origin unmarshal r)
    (hholder : (mutex' = w.mutex ∧ b.critical = a.critical) ∨
      (a.critical = false ∧ b.critical = true ∧ w.mutex = none ∧ mutex' = some i) ∨
      (a.critical = true ∧ b.critical = false ∧ mutex' = none))
    (hsnap : (products' = w.products ∧
        ∀ product old, b = PostPC.appending product old → old = w.products) ∨
      (a.critical = true ∧ ∀ product old, b ≠ PostPC.appending product old))
    (hperm : (products' = w.products ∧ b.committed = a.committed) ∨
      (∃ product, a.committed = none ∧ b.committed = some product ∧
        products' = w.products ++ [product])) :
    Inv unmarshal reqs { products := products', mutex := mutex', pcs := w.pcs.set i b } := by
  have hilt : i < w.pcs.length := by
    by_contra hge
    rw [List.getElem?_eq_none (by omega)] at ha
    cases ha
  have hai := hinv.holder i a ha
  refine ⟨?_, ?_, ?_, ?_, ?_, ?_⟩
  · simp only [List.length_set]
    exact hinv.size
  · intro j pc r' hpc hr'
    rcases getElem?_set_cases _ _ _ _ _ hpc with ⟨rfl, rfl⟩ | ⟨-, hold⟩
    · rw [hr] at hr'
      cases hr'
      exact horigin
    · exact hinv.origin j pc r' hold hr'
  · intro j pc hpc
    show pc.critical = true ↔ mutex' = some j
    rcases getElem?_set_cases _ _ _ _ _ hpc with ⟨rfl, rfl⟩ | ⟨hne, hold⟩
    · rcases hholder with ⟨hm, hc⟩ | ⟨-, hb, -, hm⟩ | ⟨-, hb, hm⟩
      · rw [hm, hc]; exact hai
      · rw [hm, hb]; simp
      · rw [hm, hb]; simp
    · have hj := hinv.holder j pc hold
      rcases hholder with ⟨hm, -⟩ | ⟨-, -, hnone, hm⟩ | ⟨hacrit, -, hm⟩
      · rw [hm]; exact hj
      · rw [hm]
        rw [hnone] at hj
        constructor
        · intro h; exact absurd (hj.1 h) (by simp)
        · intro h; exact absurd (Option.some.inj h) (fun h' => hne h'.symm)
      · rw [hm]
        have hmi : w.mutex = some i := hai.1 hacrit
        rw [hmi] at hj
        constructor
        · intro h; exact absurd (Option.some.inj (hj.1 h)) (fun h' => hne h'.symm)
        · intro h; cases h
  · intro j hj
    show j < (w.pcs.set i b).length
    simp only [List.length_set]
    change mutex' = some j at hj
    rcases hholder with ⟨hm, -⟩ | ⟨-, -, -, hm⟩ | ⟨-, -, hm⟩
    · rw [hm] at hj; exact hinv.holderLt j hj
    · rw [hm] at hj; cases hj; exact hilt
    · rw [hm] at hj; cases hj
  · intro j product old hpc
    show old = products'
    rcases getElem?_set_cases _ _ _ _ _ hpc with ⟨rfl, hb⟩ | ⟨hne, hold⟩
    · rcases hsnap with ⟨hp, hb'⟩ | ⟨-, hb'⟩
      · rw [hp]; exact hb' product old hb.symm
      · exact absurd hb.symm (hb' product old)
    · have ho := hinv.snapshot j product old hold
      rcases hsnap with ⟨hp, -⟩ | ⟨hacrit, -⟩
      · rw [hp]; exact ho
      · have hmi : w.mutex = some i := hai.1 hacrit
        have hmj : w.mutex = some j := (hinv.holder j _ hold).1 rfl
        rw [hmi] at hmj
        exact absurd (Option.some.inj hmj).symm hne
  · show List.Perm products' ((w.pcs.set i b).filterMap PostPC.committed)
    rcases hperm with ⟨hp, hc⟩ | ⟨product, hca, hcb, hp⟩
    · rw [hp, filterMap_set_same _ _ _ a b ha hc]
      exact hinv.perm
    · rw [hp]
      exact (List.Perm.append_right [product] hinv.perm).trans
        (filterMap_set_new _ _ _ a b product ha hca hcb).symm

theorem postEntry_origin (unmarshal : String → Except String Product) (r : Request) :
    (postEntry unmarshal r).origin unmarshal r := by
  cases h : postEntry unmarshal r with
  | entry => trivial
  | failed resp => exact h
  | decoded product => exact h
  | locked product => exact absurd h (by unfold postEntry; split <;> [simp; (split <;> [simp; (split <;> simp)])])
  | appending product old => exact absurd h (by unfold postEntry; split <;> [simp; (split <;> [simp; (split <;> simp)])])
  | stored product => exact absurd h (by unfold postEntry; split <;> [simp; (split <;> [simp; (split <;> simp)])])
  | done product => exact absurd h (by unfold postEntry; split <;> [simp; (split <;> [simp; (split <;> simp)])])

theorem postEntry_not_critical (unmarshal : String → Except String Product) (r : Request) :
    (postEntry unmarshal r).critical = false ∧ (postEntry unmarshal r).committed = none ∧
      (postEntry unmarshal r).remaining < 5 ∧
      ∀ product old, postEntry unmarshal r ≠ PostPC.appending product old := by
  unfold postEntry
  split
  · exact ⟨rfl, rfl, by simp [PostPC.remaining], fun _ _ h => by cases h⟩
  · split
    · exact ⟨rfl, rfl, by simp [PostPC.remaining], fun _ _ h => by cases h⟩
    · split
      · exact ⟨rfl, rfl, by simp [PostPC.remaining], fun _ _ h => by cases h⟩
      · exact ⟨rfl, rfl, by simp [PostPC.remaining], fun _ _ h => by cases h⟩

/-- A step of a goroutine keeps the invariant. -/
theorem Inv_step (unmarshal : String → Except String Product) (reqs : List Request)
    (i : Nat) (w w' : World) (hinv : Inv unmarshal reqs w)
    (h : stepThread unmarshal reqs i w = some w') : Inv unmarshal reqs w' := by
  obtain ⟨r, hr, hcase⟩ := stepThread_cases unmarshal reqs i w w' h
  rcases hcase with ⟨hpc, rfl⟩ | ⟨product, hpc, hmu, rfl⟩ | ⟨product, hpc, rfl⟩ |
    ⟨product, old, hpc, rfl⟩ | ⟨product, hpc, rfl⟩
  · obtain ⟨hc, hm, -, happ⟩ := postEntry_not_critical unmarshal r
    exact Inv_set unmarshal reqs w i _ _ r _ _ hinv hpc hr (postEntry_origin unmarshal r)
      (Or.inl ⟨rfl, hc⟩) (Or.inl ⟨rfl, fun p o hb => absurd hb (happ p o)⟩)
      (Or.inl ⟨rfl, hm⟩)
  · exact Inv_set unmarshal reqs w i _ _ r _ _ hinv hpc hr
      (hinv.origin i (PostPC.decoded product) r hpc hr)
      (Or.inr (Or.inl ⟨rfl, rfl, hmu, rfl⟩)) (Or.inl ⟨rfl, fun p o hb => by cases hb⟩)
      (Or.inl ⟨rfl, rfl⟩)
  · exact Inv_set unmarshal reqs w i _ _ r _ _ hinv hpc hr
      (hinv.origin i (PostPC.locked product) r hpc hr)
      (Or.inl ⟨rfl, rfl⟩) (Or.inl ⟨rfl, fun p o hb => by cases hb; rfl⟩)
      (Or.inl ⟨rfl, rfl⟩)
  · have hold : old = w.products := hinv.snapshot i product old hpc
    subst hold
    exact Inv_set unmarshal reqs w i _ _ r _ _ hinv hpc hr
      (hinv.origin i (PostPC.appending product w.products) r hpc hr)
      (Or.inl ⟨rfl, rfl⟩) (Or.inr ⟨rfl, fun p o hb => by cases hb⟩)
      (Or.inr ⟨product, rfl, rfl, rfl⟩)
  · exact Inv_set unmarshal reqs w i _ _ r _ _ hinv hpc hr
      (hinv.origin i (PostPC.stored product) r hpc hr)
      (Or.inr (Or.inr ⟨rfl, rfl, rfl⟩)) (Or.inl ⟨rfl, fun p o hb => by cases hb⟩)
      (Or.inl ⟨rfl, rfl⟩)

/-- The invariant holds at the start. -/
theorem Inv_start (unmarshal : String → Except String Product) (reqs : List Request) :
    Inv unmarshal reqs (start reqs) := by
  have hentry : ∀ (i : Nat) (pc : PostPC), (start reqs).pcs[i]? = some pc → pc = PostPC.entry := by
    intro i pc h
    simp only [start, List.getElem?_map] at h
    cases hr : reqs[i]? with
    | none => rw [hr] at h; cases h
    | some r => rw [hr] at h; exact (Option.some.inj h).symm
  refine ⟨by simp [start], ?_, ?_, ?_, ?_, ?_⟩
  · intro i pc r hpc _
    rw [hentry i pc hpc]
    trivial
  · intro i pc hpc
    rw [hentry i pc hpc]
    simp [start, PostPC.critical]
  · intro i h
    cases h
  · intro i product old hpc
    cases hentry i _ hpc
  · show List.Perm [] ((reqs.map fun _ => PostPC.entry).filterMap PostPC.committed)
    have : (reqs.map fun _ => PostPC.entry).filterMap PostPC.committed = [] := by
      induction reqs with
      | nil => rfl
      | cons r t ih => simp [PostPC.committed]
    rw [this]

/-- Every schedule keeps the invariant. -/
theorem Inv_run (unmarshal : String → Except String Product) (reqs : List Request)
    (sched : List Nat) (w w' : World) (hinv : Inv unmarshal reqs w)
    (h : run unmarshal reqs sched w = some w') : Inv unmarshal reqs w' := by
  induction sched generalizing w with
  | nil =>
    cases h
    exact hinv
  | cons i rest ih =>
    unfold run at h
    cases hs : stepThread unmarshal reqs i w with
    | none => rw [hs] at h; cases h
    | some w1 =>
      rw [hs] at h
      exact ih w1 (Inv_step unmarshal reqs i w w1 hinv hs) h

/-- Every step uses up at least one of the steps left. -/
theorem remaining_step (unmarshal : String → Except String Product) (reqs : List Request)
    (i : Nat) (w w' : World) (h : stepThread unmarshal reqs i w = some w') :
    w'.remaining < w.remaining := by
  obtain ⟨r, -, hcase⟩ := stepThread_cases unmarshal reqs i w w' h
  unfold World.remaining
  rcases hcase with ⟨hpc, rfl⟩ | ⟨product, hpc, -, rfl⟩ | ⟨product, hpc, rfl⟩ |
    ⟨product, old, hpc, rfl⟩ | ⟨product, hpc, rfl⟩
  · have := sum_map_set PostPC.remaining w.pcs i _ (postEntry unmarshal r) hpc
    have hlt := (postEntry_not_critical unmarshal r).2.2.1
    have h5 : PostPC.entry.remaining = 5 := rfl
    rw [h5] at this
    show ((w.pcs.set i (postEntry unmarshal r)).map PostPC.remaining).sum
      < (w.pcs.map PostPC.remaining).sum
    omega
  · have := sum_map_set PostPC.remaining w.pcs i _ (PostPC.locked product) hpc
    simp only [PostPC.remaining] at this ⊢
    omega
  · have := sum_map_set PostPC.remaining w.pcs i _ (PostPC.appending product w.products) hpc
    simp only [PostPC.remaining] at this ⊢
    omega
  · have := sum_map_set PostPC.remaining w.pcs i _ (PostPC.stored product) hpc
    simp only [PostPC.remaining] at this ⊢
    omega
  · have := sum_map_set PostPC.remaining w.pcs i _ (PostPC.done product) hpc
    simp only [PostPC.remaining] at this ⊢
    omega

/-- No deadlock: as long as a goroutine has not returned, some goroutine can
make a step. -/
theorem Inv_progress (unmarshal : String → Except String Product) (reqs : List Request)
    (w : World) (hinv : Inv unmarshal reqs w) (hfin : w.finished = false) :
    ∃ i w', stepThread unmarshal reqs i w = some w' := by
  have hreq : ∀ j : Nat, j < w.pcs.length → ∃ r, reqs[j]? = some r := by
    intro j hj
    have hj2 : j < reqs.length := by rw [← hinv.size]; exact hj
    exact ⟨reqs[j], List.getElem?_eq_getElem hj2⟩
  have hmove : ∀ (j : Nat) (pc : PostPC), w.pcs[j]? = some pc → pc.critical = true →
      ∃ w', stepThread unmarshal reqs j w = some w' := by
    intro j pc hpc hcrit
    have hj : j < w.pcs.length := by
      by_contra hge
      rw [List.getElem?_eq_none (by omega)] at hpc
      cases hpc
    obtain ⟨r, hr⟩ := hreq j hj
    cases pc with
    | locked product => exact ⟨_, by simp only [stepThread, List.get?_eq_getElem?, hr, hpc]; rfl⟩
    | appending product old => exact ⟨_, by simp only [stepThread, List.get?_eq_getElem?, hr, hpc]; rfl⟩
    | stored product => exact ⟨_, by simp only [stepThread, List.get?_eq_getElem?, hr, hpc]; rfl⟩
    | entry => cases hcrit
    | failed resp => cases hcrit
    | decoded product => cases hcrit
    | done product => cases hcrit
  unfold World.finished at hfin
  have hex : ∃ pc ∈ w.pcs, PostPC.returned pc = false := by
    by_contra hno
    have hall : w.pcs.all PostPC.returned = true := by
      rw [List.all_eq_true]
      intro pc hpc
      by_contra hpcf
      exact hno ⟨pc, hpc, by simpa using hpcf⟩
    rw [hall] at hfin
    cases hfin
  obtain ⟨pc, hmem, hret⟩ := hex
  obtain ⟨i, hi, hget⟩ := List.getElem_of_mem hmem
  have hpc : w.pcs[i]? = some pc := by rw [List.getElem?_eq_getElem hi, hget]
  obtain ⟨r, hr⟩ := hreq i hi
  cases pc with
  | entry => exact ⟨i, _, by simp only [stepThread, List.get?_eq_getElem?, hr, hpc]; rfl⟩
  | failed resp => cases hret
  | done product => cases hret
  | locked product => exact ⟨i, hmove i _ hpc rfl⟩
  | appending product old => exact ⟨i, hmove i _ hpc rfl⟩
  | stored product => exact ⟨i, hmove i _ hpc rfl⟩
  | decoded product =>
    cases hmu : w.mutex with
    | none => exact ⟨i, _, by simp only [stepThread, List.get?_eq_getElem?, hr, hpc, hmu, if_true]; rfl⟩
    | some j =>
      have hj : j < w.pcs.length := hinv.holderLt j hmu
      have hpcj : w.pcs[j]? = some w.pcs[j] := List.getElem?_eq_getElem hj
      exact ⟨j, hmove j _ hpcj ((hinv.holder j _ hpcj).2 hmu)⟩

/-- From every reachable state some schedule lets all goroutines return. -/
theorem exists_complete_run (unmarshal : String → Except String Product)
    (reqs : List Request) (n : Nat) (w : World) (hinv : Inv unmarshal reqs w)
    (hn : w.remaining ≤ n) :
    ∃ sched w', run unmarshal reqs sched w = some w' ∧ w'.finished = true := by
  induction n generalizing w with
  | zero =>
    cases hfin : w.finished with
    | true => exact ⟨[], w, rfl, hfin⟩
    | false =>
      obtain ⟨i, w1, hs⟩ := Inv_progress unmarshal reqs w hinv hfin
      have := remaining_step unmarshal reqs i w w1 hs
      omega
  | succ n ih =>
    cases hfin : w.finished with
    | true => exact ⟨[], w, rfl, hfin⟩
    | false =>
      obtain ⟨i, w1, hs⟩ := Inv_progress unmarshal reqs w hinv hfin
      have hlt := remaining_step unmarshal reqs i w w1 hs
      obtain ⟨sched, w', hrun, hfin'⟩ :=
        ih w1 (Inv_step unmarshal reqs i w w1 hinv hs) (by omega)
      exact ⟨i :: sched, w', by simp [run, hs, hrun], hfin'⟩

/-- A request is accepted exactly when its body is read, its content type is
`application/json` and its body decodes. -/
theorem accepted_eq_some_iff (unmarshal : String → Except String Product) (r : Request)
    (product : Product) :
    accepted unmarshal r = some product ↔
      ∃ body, r.Body = Except.ok body ∧ r.contentType = "application/json" ∧
        unmarshal body = Except.ok product := by
  unfold accepted postEntry
  constructor
  · intro h
    cases hb : r.Body with
    | error err => rw [hb] at h; cases h
    | ok body =>
      rw [hb] at h
      by_cases hct : r.contentType = "application/json"
      · cases hu : unmarshal body with
        | error err => simp [hct, hu] at h
        | ok b =>
          simp [hct, hu] at h
          exact ⟨body, rfl, hct, by rw [hu, h]⟩
      · simp [hct] at h
  · rintro ⟨body, hb, hct, hu⟩
    simp [hb, hct, hu]

/-- The part of `post` before the lock and the append agree with `post` run
alone: a refused request gets the same answer and leaves the collection, an
accepted one gets 201 and is appended. -/
theorem post_eq_of_postEntry (unmarshal : String → Except String Product)
    (p : productHandler) (r : Request) :
    (∀ resp, postEntry unmarshal r = PostPC.failed resp →
      p.post unmarshal r = some (resp, p)) ∧
    (∀ product, postEntry unmarshal r = PostPC.decoded product →
      p.post unmarshal r = some (respondWithJSON StatusCreated (Data.product product),
        { products := p.products ++ [product] })) := by
  unfold postEntry productHandler.post
  cases hb : r.Body with
  | error err => exact ⟨fun resp h => (by cases h; rfl), fun product h => (by cases h)⟩
  | ok body =>
    by_cases hct : r.contentType = "application/json"
    · cases hu : unmarshal body with
      | error err =>
        simp only [hct, hu, ne_eq, not_true_eq_false, if_false]
        exact ⟨fun resp h => (by cases h; rfl), fun product h => (by cases h)⟩
      | ok b =>
        simp only [hct, hu, ne_eq, not_true_eq_false, if_false]
        exact ⟨fun resp h => (by cases h), fun product h => (by cases h; rfl)⟩
    · simp only [ne_eq, hct, not_false_eq_true, if_true]
      exact ⟨fun resp h => (by cases h; rfl), fun product h => (by cases h)⟩

/-- Once all goroutines have returned, each has committed exactly what its
request was accepted with. -/
theorem finished_committed (unmarshal : String → Except String Product)
    (reqs : List Request) (w : World) (hinv : Inv unmarshal reqs w)
    (hfin : w.finished = true) :
    w.pcs.map PostPC.committed = reqs.map (accepted unmarshal) := by
  unfold World.finished at hfin
  rw [List.all_eq_true] at hfin
  apply List.ext_getElem?
  intro i
  rw [List.getElem?_map, List.getElem?_map]
  by_cases hi : i < w.pcs.length
  · have hi' : i < reqs.length := by rw [← hinv.size]; exact hi
    have hpc : w.pcs[i]? = some w.pcs[i] := List.getElem?_eq_getElem hi
    have hr : reqs[i]? = some reqs[i] := List.getElem?_eq_getElem hi'
    have hret := hfin w.pcs[i] (List.getElem_mem _)
    have horig := hinv.origin i _ _ hpc hr
    rw [hpc, hr]
    simp only [Option.map_some']
    congr 1
    cases hcase : w.pcs[i] with
    | failed resp =>
      rw [hcase] at horig
      have : postEntry unmarshal reqs[i] = PostPC.failed resp := horig
      simp [accepted, this, PostPC.committed]
    | done product =>
      rw [hcase] at horig
      have : postEntry unmarshal reqs[i] = PostPC.decoded product := horig
      simp [accepted, this, PostPC.committed]
    | entry => rw [hcase] at hret; cases hret
    | decoded product => rw [hcase] at hret; cases hret
    | locked product => rw [hcase] at hret; cases hret
    | appending product old => rw [hcase] at hret; cases hret
    | stored product => rw [hcase] at hret; cases hret
  · rw [List.getElem?_eq_none (by omega), List.getElem?_eq_none (by rw [← hinv.size]; omega)]
    rfl

theorem filterMap_length_of_all_some {α β : Type} (f : α → Option β) (l : List α)
    (h : ∀ a ∈ l, ∃ b, f a = some b) : (l.filterMap f).length = l.length := by
  induction l with
  | nil => rfl
  | cons a t ih =>
    obtain ⟨b, hb⟩ := h a (List.mem_cons_self _ _)
    simp [List.filterMap_cons, hb, ih fun x hx => h x (List.mem_cons_of_mem _ hx)]

/-- C11. Goroutines serve `N` successful `POST` requests at the same time on
an empty collection, their steps interleaved in any order, the read and the
write of `append` being separate steps taken between `p.Lock()` and
`p.Unlock()`.  Some schedule lets them all return, no reachable state is a
deadlock, at most one goroutine is between `Lock` and `Unlock`, and in every
state in which all have returned the length of the collection is `N`, the
collection is a permutation of the `N` posted records (each one occupies its
own index, none is lost), the mutex is free and every goroutine has answered
201 for its own record. -/
theorem concurrent_posts_all_appended (unmarshal : String → Except String Product)
    (reqs : List Request)
    (hok : ∀ r ∈ reqs, ∃ body product, r.Body = Except.ok body ∧
      r.contentType = "application/json" ∧ unmarshal body = Except.ok product) :
    (∃ sched w, run unmarshal reqs sched (start reqs) = some w ∧ w.finished = true) ∧
    ∀ sched w, run unmarshal reqs sched (start reqs) = some w →
      (∀ (i j : Nat) (pc pc' : PostPC), w.pcs[i]? = some pc → w.pcs[j]? = some pc' →
        pc.critical = true → pc'.critical = true → i = j) ∧
      (w.finished = false → ∃ i w', stepThread unmarshal reqs i w = some w') ∧
      (w.finished = true →
        w.products.length = reqs.length ∧
        List.Perm w.products (reqs.filterMap (accepted unmarshal)) ∧
        w.mutex = none ∧
        ∀ (i : Nat) (r : Request), reqs[i]? = some r →
          ∃ product, accepted unmarshal r = some product ∧
            w.pcs[i]? = some (PostPC.done product) ∧
            (PostPC.done product).response?
              = some (respondWithJSON StatusCreated (Data.product product))) := by
  have hacc : ∀ r ∈ reqs, ∃ product, accepted unmarshal r = some product := by
    intro r hr
    obtain ⟨body, product, hb, hct, hu⟩ := hok r hr
    exact ⟨product, (accepted_eq_some_iff unmarshal r product).2 ⟨body, hb, hct, hu⟩⟩
  refine ⟨exists_complete_run unmarshal reqs _ _ (Inv_start unmarshal reqs) (Nat.le_refl _), ?_⟩
  intro sched w hrun
  have hinv := Inv_run unmarshal reqs sched _ w (Inv_start unmarshal reqs) hrun
  refine ⟨?_, Inv_progress unmarshal reqs w hinv, ?_⟩
  · intro i j pc pc' hpc hpc' hc hc'
    have h1 := (hinv.holder i pc hpc).1 hc
    have h2 := (hinv.holder j pc' hpc').1 hc'
    rw [h1] at h2
    exact Option.some.inj h2
  · intro hfin
    have hcom := finished_committed unmarshal reqs w hinv hfin
    have hperm : List.Perm w.products (reqs.filterMap (accepted unmarshal)) := by
      have h1 : w.pcs.filterMap PostPC.committed
          = (w.pcs.map PostPC.committed).filterMap id := by
        rw [List.filterMap_map]; rfl
      have h2 : reqs.filterMap (accepted unmarshal)
          = (reqs.map (accepted unmarshal)).filterMap id := by
        rw [List.filterMap_map]; rfl
      rw [h2, ← hcom, ← h1]
      exact hinv.perm
    have hret : ∀ pc ∈ w.pcs, PostPC.returned pc = true := by
      unfold World.finished at hfin
      rwa [List.all_eq_true] at hfin
    refine ⟨?_, hperm, ?_, ?_⟩
    · rw [hperm.length_eq, filterMap_length_of_all_some _ _ hacc]
    · cases hmu : w.mutex with
      | none => rfl
      | some j =>
        have hj : j < w.pcs.length := hinv.holderLt j hmu
        have hpcj : w.pcs[j]? = some w.pcs[j] := List.getElem?_eq_getElem hj
        have hcrit := (hinv.holder j _ hpcj).2 hmu
        have hr := hret w.pcs[j] (List.getElem_mem _)
        cases hcase : w.pcs[j] with
        | entry => rw [hcase] at hr; cases hr
        | decoded product => rw [hcase] at hr; cases hr
        | locked product => rw [hcase] at hr; cases hr
        | appending product old => rw [hcase] at hr; cases hr
        | stored product => rw [hcase] at hr; cases hr
        | failed resp => rw [hcase] at hcrit; cases hcrit
        | done product => rw [hcase] at hcrit; cases hcrit
    · intro i r hr
      have hi' : i < reqs.length := by
        by_contra hge
        rw [List.getElem?_eq_none (by omega)] at hr
        cases hr
      have hrmem : r ∈ reqs := by
        rw [List.getElem?_eq_getElem hi'] at hr
        rw [← Option.some.inj hr]
        exact List.getElem_mem _
      obtain ⟨product, hprod⟩ := hacc r hrmem
      have hi : i < w.pcs.length := by rw [hinv.size]; exact hi'
      have hpc : w.pcs[i]? = some w.pcs[i] := List.getElem?_eq_getElem hi
      have hidx : (w.pcs.map PostPC.committed)[i]?
          = (reqs.map (accepted unmarshal))[i]? := by rw [hcom]
      rw [List.getElem?_map, List.getElem?_map, hpc, hr] at hidx
      simp only [Option.map_some', Option.some.injEq] at hidx
      rw [hprod] at hidx
      have hr' := hret w.pcs[i] (List.getElem_mem _)
      refine ⟨product, hprod, ?_, rfl⟩
      rw [hpc]
      cases hcase : w.pcs[i] with
      | entry => rw [hcase] at hr'; cases hr'
      | decoded product => rw [hcase] at hr'; cases hr'
      | locked product => rw [hcase] at hr'; cases hr'
      | appending product old => rw [hcase] at hr'; cases hr'
      | stored product => rw [hcase] at hr'; cases hr'
      | failed resp => rw [hcase] at hidx; cases hidx
      | done q =>
        rw [hcase] at hidx
        cases hidx
        rfl

/-- Witness for C11: two `POST`s on an empty collection; the second gets the
mutex first, and both records are in the collection at the end. -/
theorem concurrent_posts_all_appended_witness :
    run sampleUnmarshal twoPosts [0, 1, 1, 1, 1, 1, 0, 0, 0, 0] (start twoPosts)
      = some { products := [⟨"", ⟨0x403E000000000000⟩⟩, ⟨"Cable", ⟨0x4014000000000000⟩⟩],
               mutex := none,
               pcs := [PostPC.done ⟨"Cable", ⟨0x4014000000000000⟩⟩,
                       PostPC.done ⟨"", ⟨0x403E000000000000⟩⟩] } ∧
      ([⟨"", ⟨0x403E000000000000⟩⟩, ⟨"Cable", ⟨0x4014000000000000⟩⟩] : Products).length
        = twoPosts.length := by
  have hrun : run sampleUnmarshal twoPosts [0, 1, 1, 1, 1, 1, 0, 0, 0, 0] (start twoPosts)
      = some { products := [⟨"", ⟨0x403E000000000000⟩⟩, ⟨"Cable", ⟨0x4014000000000000⟩⟩],
               mutex := none,
               pcs := [PostPC.done ⟨"Cable", ⟨0x4014000000000000⟩⟩,
                       PostPC.done ⟨"", ⟨0x403E000000000000⟩⟩] } := by
    decide
  have hok : ∀ r ∈ twoPosts, ∃ body product, r.Body = Except.ok body ∧
      r.contentType = "application/json" ∧ sampleUnmarshal body = Except.ok product := by
    intro r hr
    simp only [twoPosts, List.mem_cons, List.mem_singleton, List.not_mem_nil, or_false] at hr
    rcases hr with rfl | rfl
    · exact ⟨_, _, rfl, rfl, rfl⟩
    · exact ⟨_, _, rfl, rfl, rfl⟩
  exact ⟨hrun,
    (((concurrent_posts_all_appended sampleUnmarshal twoPosts hok).2 _ _ hrun).2.2 rfl).1⟩

end GoRest
